import Mathlib

/-
Verification development for the SARE (Self-Evolving Adaptive Routing Engine)
subsystem: a shallow embedding, in Lean 4, of the Python modules
`isha/sare_traffic.py`, `isha/sare_optimizer.py`, `ishaa/sare_codepath.py`,
`ishaa/sare_predictor.py` and `ishaa/sare.py`, together with theorems about
the embedded operations.

Modelling conventions:
  * Python floats are modelled as exact rationals (`Rat`); Python ints as
    `Int`/`Nat`.  No floating-point rounding is modelled.
  * `time.monotonic()` / `time.time()` are modelled by passing the current
    time explicitly as a `Rat` argument (`now`).
  * A Python `dict` / `OrderedDict` is modelled as an association list in
    insertion order (head = oldest entry); dict keys are unique, which the
    embedded operations preserve.
  * A `collections.deque` with `maxlen` is modelled as a list to which
    `dqPush` appends on the right and drops from the left when over capacity.
  * Logging calls are ignored (they do not change the embedded state).
-/

namespace Sare

/-- Append to a bounded deque (`collections.deque(maxlen := cap)`): push `x`
on the right, then drop elements from the left while over capacity. -/
def dqPush (cap : Nat) (xs : List α) (x : α) : List α :=
  let ys := xs ++ [x]
  ys.drop (ys.length - cap)

/- ════════════════════════════════════════════════════════════════════
   ResponseCache  (ishaa/sare_codepath.py, lines 30-116)
   ════════════════════════════════════════════════════════════════════ -/

/-- One entry of the `OrderedDict` backing `ResponseCache`:
`key -> (response_data, expires_at)`. -/
structure CacheEntry (V : Type) where
  key : String
  data : V
  expires_at : Rat
deriving Repr, DecidableEq

/-- Embedding of `ResponseCache.__init__`: the `OrderedDict` is an
insertion-ordered list whose head is the oldest (least recently used) entry. -/
structure ResponseCache (V : Type) where
  max_size : Nat
  default_ttl : Rat
  cache : List (CacheEntry V)
  hits : Nat
  misses : Nat
deriving Repr, DecidableEq

/-- Keys of the backing ordered dict, oldest first. -/
def cacheKeys (c : List (CacheEntry V)) : List String :=
  c.map (fun e => e.key)

/-- Dict lookup `self._cache[key]` (first matching entry; keys are unique). -/
def cacheLookup (c : List (CacheEntry V)) (k : String) : Option (V × Rat) :=
  (c.find? (fun e => e.key == k)).map (fun e => (e.data, e.expires_at))

/-- Dict deletion `del self._cache[key]`. -/
def removeKey (c : List (CacheEntry V)) (k : String) : List (CacheEntry V) :=
  c.filter (fun e => e.key != k)

/-- Embedding of `ResponseCache.get`: miss if absent; on an expired hit the
entry is deleted and a miss is counted; otherwise move-to-end and a hit is
counted.  Returns the looked-up value together with the updated cache. -/
def ResponseCache.get (rc : ResponseCache V) (now : Rat) (k : String) :
    Option V × ResponseCache V :=
  match cacheLookup rc.cache k with
  | none => (none, { rc with misses := rc.misses + 1 })
  | some (data, exp) =>
    if now > exp then
      (none, { rc with cache := removeKey rc.cache k, misses := rc.misses + 1 })
    else
      (some data,
       { rc with cache := removeKey rc.cache k ++ [⟨k, data, exp⟩],
                 hits := rc.hits + 1 })

/-- Embedding of `ResponseCache.put`: insert/overwrite at the
most-recently-used end, then `while len > max_size: popitem(last=False)`,
i.e. drop entries from the front until at most `max_size` remain. -/
def ResponseCache.put (rc : ResponseCache V) (now : Rat) (k : String)
    (data : V) (ttl : Option Rat) : ResponseCache V :=
  let t := ttl.getD rc.default_ttl
  let expires_at := now + t
  let c1 := removeKey rc.cache k ++ [⟨k, data, expires_at⟩]
  { rc with cache := c1.drop (c1.length - rc.max_size) }

/-- Embedding of `ResponseCache.evict_expired`: delete every entry with
`now > expires_at`. -/
def ResponseCache.evict_expired (rc : ResponseCache V) (now : Rat) :
    ResponseCache V :=
  { rc with cache := rc.cache.filter (fun e => !(decide (now > e.expires_at))) }

/-- Embedding of `ResponseCache.clear`. -/
def ResponseCache.clear (rc : ResponseCache V) : ResponseCache V :=
  { rc with cache := [], hits := 0, misses := 0 }

/-- A fresh cache, as built by `ResponseCache.__init__`. -/
def emptyCache (V : Type) (max_size : Nat) (default_ttl : Rat) :
    ResponseCache V :=
  { max_size := max_size, default_ttl := default_ttl,
    cache := [], hits := 0, misses := 0 }

/-- Fold a sequence of `put` calls (all at time `now`, default ttl) over a
cache, one per key in order. -/
def putAll (rc : ResponseCache V) (now : Rat) (v : String → V)
    (ks : List String) : ResponseCache V :=
  ks.foldl (fun acc k => acc.put now k (v k) none) rc

/- ════════════════════════════════════════════════════════════════════
   RouteMetrics / MiddlewareMetrics / TrafficAnalyzer
   (isha/sare_traffic.py)
   ════════════════════════════════════════════════════════════════════ -/

/-- Arithmetic mean, `statistics.mean` (callers guarantee a nonempty list). -/
def listMean (l : List Rat) : Rat :=
  l.sum / l.length

/-- Embedding of the `RouteMetrics` dataclass.  The deque capacities are not
stored here (Python bakes them into each deque); they are passed to
`RouteMetrics.record` by the caller. -/
structure RouteMetrics where
  path : String
  method : String
  latencies : List Rat
  timestamps : List Rat
  error_codes : List Int
  response_sizes : List Int
  total_requests : Nat
  total_errors : Nat
  total_5xx : Nat
  avg_latency : Rat
  p50_latency : Rat
  p95_latency : Rat
  p99_latency : Rat
  requests_per_second : Rat
  error_rate : Rat
  heat_score : Rat
deriving Repr, DecidableEq

/-- A fresh `RouteMetrics` (dataclass defaults: empty windows, zero counters
and zero snapshot values). -/
def initRouteMetrics (path method : String) : RouteMetrics :=
  { path := path, method := method, latencies := [], timestamps := [],
    error_codes := [], response_sizes := [], total_requests := 0,
    total_errors := 0, total_5xx := 0, avg_latency := 0, p50_latency := 0,
    p95_latency := 0, p99_latency := 0, requests_per_second := 0,
    error_rate := 0, heat_score := 0 }

/-- Embedding of `RouteMetrics.record` (`time.monotonic()` is the explicit
`now`; `capLat` is the latency/timestamp window capacity, `capErr` the
error-code/response-size window capacity). -/
def RouteMetrics.record (rm : RouteMetrics) (capLat capErr : Nat)
    (now latency : Rat) (status_code response_size : Int) : RouteMetrics :=
  { rm with
    latencies := dqPush capLat rm.latencies latency,
    timestamps := dqPush capLat rm.timestamps now,
    response_sizes := dqPush capErr rm.response_sizes response_size,
    total_requests := rm.total_requests + 1,
    error_codes := if status_code ≥ 400
      then dqPush capErr rm.error_codes status_code else rm.error_codes,
    total_errors := if status_code ≥ 400
      then rm.total_errors + 1 else rm.total_errors,
    total_5xx := if status_code ≥ 500
      then rm.total_5xx + 1 else rm.total_5xx }

/-- The heat-score formula from the tail of `RouteMetrics.compute_snapshot`
(lines 85-88 of `sare_traffic.py`): `freq_score * 0.5 + latency_score * 0.3
+ error_penalty * 0.2` with the three component scores as in the source. -/
def heatScore (rps avg_latency err_rate : Rat) : Rat :=
  let freq_score := min (rps / 10) 1
  let latency_score := max 0 (1 - avg_latency / 2)
  let error_penalty := 1 - min (err_rate * 2) 1
  freq_score * 0.5 + latency_score * 0.3 + error_penalty * 0.2

/-- Embedding of `RouteMetrics.compute_snapshot`.  Python's
`int(n * 0.95)` / `int(n * 0.99)` percentile indices are modelled as exact
`(n * 95) / 100` / `(n * 99) / 100` natural-number division. -/
def RouteMetrics.compute_snapshot (rm : RouteMetrics) (now : Rat) :
    RouteMetrics :=
  if rm.latencies = [] then rm
  else
    let sorted_latencies := rm.latencies.mergeSort (fun a b => a ≤ b)
    let n := sorted_latencies.length
    let avg := listMean sorted_latencies
    let p50 := sorted_latencies.getD (n / 2) 0
    let p95 := if n ≥ 20 then sorted_latencies.getD ((n * 95) / 100) 0
      else sorted_latencies.getLastD 0
    let p99 := if n ≥ 100 then sorted_latencies.getD ((n * 99) / 100) 0
      else sorted_latencies.getLastD 0
    let recent := rm.timestamps.filter (fun t => decide (now - t ≤ 60))
    let rps := if recent = [] then 0 else (recent.length : Rat) / 60
    let err_rate := if rm.total_requests > 0
      then (rm.total_errors : Rat) / (rm.total_requests : Rat) else 0
    { rm with
      avg_latency := avg, p50_latency := p50, p95_latency := p95,
      p99_latency := p99, requests_per_second := rps, error_rate := err_rate,
      heat_score := heatScore rps avg err_rate }

/-- Embedding of the `MiddlewareMetrics` dataclass. -/
structure MiddlewareMetrics where
  name : String
  latencies : List Rat
  short_circuit_count : Nat
  total_calls : Nat
  avg_latency : Rat
deriving Repr, DecidableEq

/-- A fresh `MiddlewareMetrics` (dataclass defaults). -/
def initMiddlewareMetrics (name : String) : MiddlewareMetrics :=
  { name := name, latencies := [], short_circuit_count := 0,
    total_calls := 0, avg_latency := 0 }

/-- Embedding of `MiddlewareMetrics.record` (latency deque capacity 500). -/
def MiddlewareMetrics.record (mm : MiddlewareMetrics) (latency : Rat)
    (short_circuited : Bool) : MiddlewareMetrics :=
  { mm with
    latencies := dqPush 500 mm.latencies latency,
    total_calls := mm.total_calls + 1,
    short_circuit_count := if short_circuited
      then mm.short_circuit_count + 1 else mm.short_circuit_count }

/-- Embedding of `MiddlewareMetrics.compute_snapshot`. -/
def MiddlewareMetrics.compute_snapshot (mm : MiddlewareMetrics) :
    MiddlewareMetrics :=
  if mm.latencies = [] then mm
  else { mm with avg_latency := listMean mm.latencies }

/-- Embedding of the `MiddlewareMetrics.short_circuit_rate` property. -/
def MiddlewareMetrics.short_circuit_rate (mm : MiddlewareMetrics) : Rat :=
  if mm.total_calls > 0
  then (mm.short_circuit_count : Rat) / (mm.total_calls : Rat) else 0

/-- Dict lookup on an insertion-ordered association list. -/
def alookup [DecidableEq κ] (l : List (κ × β)) (k : κ) : Option β :=
  (l.find? (fun p => decide (p.1 = k))).map (fun p => p.2)

/-- In-place update of the entry at key `k` (Python `d[k].method(...)`). -/
def amodify [DecidableEq κ] (l : List (κ × β)) (k : κ) (f : β → β) :
    List (κ × β) :=
  l.map (fun p => if p.1 = k then (p.1, f p.2) else p)

/-- One history snapshot produced by `_build_history_point`: timestamp,
global RPS, and per-route `(rps, avg_lat, err_rate, heat)`. -/
structure HistoryPoint where
  ts : Rat
  rps_global : Rat
  routes : List (String × (Rat × Rat × Rat × Rat))
deriving Repr, DecidableEq

/-- Embedding of the `TrafficAnalyzer` state. -/
structure TrafficAnalyzer where
  window_size : Nat
  snapshot_interval : Rat
  routes : List ((String × String) × RouteMetrics)
  middleware : List (String × MiddlewareMetrics)
  global_timestamps : List Rat
  total_requests : Nat
  total_errors : Nat
  last_snapshot : Rat
  history : List HistoryPoint
deriving Repr, DecidableEq

/-- Embedding of `TrafficAnalyzer.__init__`. -/
def initAnalyzer (window_size : Nat) (snapshot_interval : Rat) :
    TrafficAnalyzer :=
  { window_size := window_size, snapshot_interval := snapshot_interval,
    routes := [], middleware := [], global_timestamps := [],
    total_requests := 0, total_errors := 0, last_snapshot := 0,
    history := [] }

/-- Embedding of `TrafficAnalyzer.record_request`: lazily create the
route's `RouteMetrics` (latency/timestamp windows sized `window_size`,
error/size windows `window_size // 2`), record into it, append a global
timestamp (capacity 10000) and bump the global counters. -/
def TrafficAnalyzer.record_request (a : TrafficAnalyzer) (now : Rat)
    (method path_pattern : String) (latency : Rat)
    (status_code response_size : Int) : TrafficAnalyzer :=
  let key := (method.toUpper, path_pattern)
  let routes0 := if alookup a.routes key = none
    then a.routes ++ [(key, initRouteMetrics path_pattern method.toUpper)]
    else a.routes
  let routes1 := amodify routes0 key
    (fun rm => rm.record a.window_size (a.window_size / 2) now latency
      status_code response_size)
  { a with
    routes := routes1,
    global_timestamps := dqPush 10000 a.global_timestamps now,
    total_requests := a.total_requests + 1,
    total_errors := if status_code ≥ 400
      then a.total_errors + 1 else a.total_errors }

/-- Embedding of `TrafficAnalyzer.record_middleware`. -/
def TrafficAnalyzer.record_middleware (a : TrafficAnalyzer) (name : String)
    (latency : Rat) (short_circuited : Bool) : TrafficAnalyzer :=
  let mw0 := if alookup a.middleware name = none
    then a.middleware ++ [(name, initMiddlewareMetrics name)]
    else a.middleware
  { a with
    middleware := amodify mw0 name (fun mm => mm.record latency
      short_circuited) }

/-- Embedding of the `TrafficAnalyzer.global_rps` property. -/
def TrafficAnalyzer.global_rps (a : TrafficAnalyzer) (now : Rat) : Rat :=
  ((a.global_timestamps.filter (fun t => decide (now - t ≤ 60))).length : Rat)
    / 60

/-- Embedding of `TrafficAnalyzer._build_history_point` (the wall-clock
`time.time()` and the monotonic clock are both modelled by `now`). -/
def TrafficAnalyzer.build_history_point (a : TrafficAnalyzer) (now : Rat) :
    HistoryPoint :=
  { ts := now, rps_global := a.global_rps now,
    routes := a.routes.map (fun p =>
      (p.2.method ++ " " ++ p.2.path,
       (p.2.requests_per_second, p.2.avg_latency, p.2.error_rate,
        p.2.heat_score))) }

/-- Embedding of `TrafficAnalyzer._refresh_snapshots`: recompute every
route's and middleware's derived metrics, stamp `last_snapshot`, and append
a history point (capacity 360). -/
def TrafficAnalyzer.refresh_snapshots (a : TrafficAnalyzer) (now : Rat) :
    TrafficAnalyzer :=
  let a1 := { a with
    routes := a.routes.map
      (fun (p : (String × String) × RouteMetrics) =>
        (p.1, p.2.compute_snapshot now)),
    middleware := a.middleware.map
      (fun (p : String × MiddlewareMetrics) => (p.1, p.2.compute_snapshot)),
    last_snapshot := now }
  { a1 with history := dqPush 360 a1.history (a1.build_history_point now) }

/-- Embedding of `TrafficAnalyzer.maybe_refresh`. -/
def TrafficAnalyzer.maybe_refresh (a : TrafficAnalyzer) (now : Rat) :
    TrafficAnalyzer :=
  if now - a.last_snapshot < a.snapshot_interval then a
  else a.refresh_snapshots now

/-- Embedding of `TrafficAnalyzer.get_hot_routes`: refresh-if-stale, then
routes sorted by heat score descending (Python's stable sort), truncated to
`top_n`.  Returns the refreshed analyzer alongside the result. -/
def TrafficAnalyzer.get_hot_routes (a : TrafficAnalyzer) (now : Rat)
    (top_n : Nat) : List RouteMetrics × TrafficAnalyzer :=
  let a1 := a.maybe_refresh now
  (((a1.routes.map (fun p => p.2)).mergeSort
      (fun r s => s.heat_score ≤ r.heat_score)).take top_n, a1)

/-- Embedding of `TrafficAnalyzer.reset`. -/
def TrafficAnalyzer.reset (a : TrafficAnalyzer) : TrafficAnalyzer :=
  { a with
    routes := [], middleware := [], global_timestamps := [],
    history := [], total_requests := 0, total_errors := 0,
    last_snapshot := 0 }

/-- One `record` call's arguments at the `RouteMetrics` level. -/
structure RMEvent where
  now : Rat
  lat : Rat
  status : Int
  size : Int
deriving Repr, DecidableEq

/-- Fold a sequence of `RouteMetrics.record` calls over a fresh metrics
object. -/
def recordAll (capLat capErr : Nat) (path method : String)
    (events : List RMEvent) : RouteMetrics :=
  events.foldl
    (fun rm e => rm.record capLat capErr e.now e.lat e.status e.size)
    (initRouteMetrics path method)

/-- One `record_request` call's arguments at the `TrafficAnalyzer` level. -/
structure ReqEvent where
  now : Rat
  method : String
  path : String
  latency : Rat
  status : Int
  size : Int
deriving Repr, DecidableEq

/-- The route key `(method.upper(), path_pattern)` of a request event. -/
def ReqEvent.key (e : ReqEvent) : String × String :=
  (e.method.toUpper, e.path)

/-- Fold a sequence of `record_request` calls over an analyzer. -/
def recordRequests (a : TrafficAnalyzer) (events : List ReqEvent) :
    TrafficAnalyzer :=
  events.foldl
    (fun a e => a.record_request e.now e.method e.path e.latency e.status
      e.size) a

/- ════════════════════════════════════════════════════════════════════
   JSONPreEncoder  (ishaa/sare_codepath.py, lines 122-208)
   ════════════════════════════════════════════════════════════════════ -/

/-- A scalar JSON-able Python value as handled by the fast path of
`JSONPreEncoder.fast_encode` (`None` / `str` / `bool` / `int` / `float`).
Python ints are modelled by `Int`.  A Python float is modelled by the text
of its `str`/`repr` (`jfloat`): CPython prints a float with the shortest
decimal that reads back to the same float (`float(repr(x)) == x`), so on
finite floats `repr` is injective and the float ↔ repr-text correspondence
is a bijection; like the md5/sha256 stand-ins, the binary64 ↔ decimal
conversion itself is abstracted by this declared bijection, under which
equality of floats is equality of their repr texts.  Nested containers
(which `fast_encode` delegates to `json.dumps`) are outside the model. -/
inductive JVal where
  | jnull : JVal
  | jbool : Bool → JVal
  | jint : Int → JVal
  | jfloat : String → JVal
  | jstr : String → JVal
deriving Repr, DecidableEq

/-- Python `type(v).__name__` for the modelled values, as used in
`JSONPreEncoder._fingerprint`. -/
def JVal.typeName : JVal → String
  | .jnull => "NoneType"
  | .jbool _ => "bool"
  | .jint _ => "int"
  | .jfloat _ => "float"
  | .jstr _ => "str"

/-- A flat Python dict payload in insertion order (keys unique). -/
abbrev JDict := List (String × JVal)

/-- Python dict `pop(k, None)`. -/
def apop [DecidableEq κ] (l : List (κ × β)) (k : κ) : List (κ × β) :=
  l.filter (fun p => decide (p.1 ≠ k))

/-- Python dict assignment `d[k] = v`: overwrite in place if present, else
append. -/
def aset [DecidableEq κ] (l : List (κ × β)) (k : κ) (v : β) :
    List (κ × β) :=
  match alookup l k with
  | none => l ++ [(k, v)]
  | some _ => amodify l k (fun _ => v)

/-- Embedding of `JSONPreEncoder._fingerprint`: the `md5` hex digest is
modelled as the identity on the hashed signature string (a collision-free
stand-in), so a fingerprint is the `|`-joined `key:typename` list over the
dict sorted by key. -/
def jsonFingerprint (data : JDict) : String :=
  String.intercalate "|"
    ((data.mergeSort (fun a b => a.1 ≤ b.1)).map
      (fun p => p.1 ++ ":" ++ p.2.typeName))

/-- Embedding of the `JSONPreEncoder` state.  The second component of each
Python template pair (`pre_encoded_static_parts`) is always `None` in the
source and is omitted. -/
structure JSONPreEncoder where
  max_templates : Nat
  templates : List (String × List String)
  structure_fingerprints : List (String × String)
deriving Repr, DecidableEq

/-- Embedding of `JSONPreEncoder.__init__`. -/
def initJSONPreEncoder (max_templates : Nat) : JSONPreEncoder :=
  { max_templates := max_templates, templates := [],
    structure_fingerprints := [] }

/-- The template-building tail of `JSONPreEncoder.learn_structure` (the
`if route_id not in self._templates` block): store the sorted key tuple,
then evict the oldest templates while over `max_templates`. -/
def JSONPreEncoder.buildTemplate (enc : JSONPreEncoder) (route_id : String)
    (data : JDict) : JSONPreEncoder :=
  if alookup enc.templates route_id = none then
    let keys := (data.map Prod.fst).mergeSort (fun a b => a ≤ b)
    let t1 := enc.templates ++ [(route_id, keys)]
    { enc with templates := t1.drop (t1.length - enc.max_templates) }
  else enc

/-- Embedding of `JSONPreEncoder.learn_structure` (its input is a dict by
the `JDict` type, so the non-dict early return is not represented).
Returns the `bool` result together with the updated state. -/
def JSONPreEncoder.learn_structure (enc : JSONPreEncoder) (route_id : String)
    (data : JDict) : Bool × JSONPreEncoder :=
  let fingerprint := jsonFingerprint data
  match alookup enc.structure_fingerprints route_id with
  | some fp =>
    if fp ≠ fingerprint then
      (false, { enc with
        templates := apop enc.templates route_id,
        structure_fingerprints :=
          aset enc.structure_fingerprints route_id fingerprint })
    else
      (true, enc.buildTemplate route_id data)
  | none =>
    (true, ({ enc with
      structure_fingerprints :=
        aset enc.structure_fingerprints route_id fingerprint
      } : JSONPreEncoder).buildTemplate route_id data)

/-- Replace every occurrence of the character `target` by the character
list `repl` (one pass of Python `str.replace` at character granularity). -/
def replaceAllChar (target : Char) (repl : List Char) : List Char → List Char
  | [] => []
  | c :: cs =>
    (if c = target then repl else [c]) ++ replaceAllChar target repl cs

/-- Embedding of the value escaping in `fast_encode`:
`val.replace("\\", "\\\\").replace('"', '\\"')` — first double every
backslash, then prefix every double quote with a backslash. -/
def escapeJsonChars (s : List Char) : List Char :=
  replaceAllChar '"' ['\\', '"'] (replaceAllChar '\\' ['\\', '\\'] s)

/-- Little-endian decimal digits with explicit fuel (`natDigitsAux n n`
computes the digits of `n`). -/
def natDigitsAux : Nat → Nat → List Nat
  | 0, _ => []
  | fuel + 1, n => if n = 0 then [] else (n % 10) :: natDigitsAux fuel (n / 10)

/-- Little-endian decimal digits of a natural number. -/
def natDigits (n : Nat) : List Nat :=
  natDigitsAux n n

/-- Decimal digits of a natural number, most significant first
(Python `str` for a nonnegative int). -/
def natRepr (n : Nat) : String :=
  if n = 0 then "0"
  else String.mk ((natDigits n).reverse.map Nat.digitChar)

/-- Python `str(int)`. -/
def intRepr : Int → String
  | .ofNat n => natRepr n
  | .negSucc m => "-" ++ natRepr (m + 1)

/-- The value text of one fast-encoded member, dispatching on the runtime
type of the value exactly as the source loop does (ints and floats share
the `isinstance(val, (int, float))` branch, which interpolates `str(val)`;
for the modelled floats that text is the stored repr itself). -/
def encodeVal : JVal → String
  | .jnull => "null"
  | .jstr s => "\"" ++ String.mk (escapeJsonChars s.data) ++ "\""
  | .jbool b => if b then "true" else "false"
  | .jint n => intRepr n
  | .jfloat s => s

/-- One `"key":value` member of the fast-encoded JSON string, from
`data.get(key)` (an absent key, like a stored `None`, encodes as `null`;
keys are interpolated without any escaping). -/
def encodePart (key : String) (o : Option JVal) : String :=
  match o with
  | none => "\"" ++ key ++ "\":null"
  | some v => "\"" ++ key ++ "\":" ++ encodeVal v

/-- Embedding of `JSONPreEncoder.fast_encode`: `None` without a template,
otherwise the members for the template's keys joined with commas inside
braces.  (The `try/except` around the loop only guards the `json.dumps`
fallback for non-scalar values, which are outside the model.) -/
def JSONPreEncoder.fast_encode (enc : JSONPreEncoder) (route_id : String)
    (data : JDict) : Option String :=
  match alookup enc.templates route_id with
  | none => none
  | some keys =>
    some ("\x7b"
      ++ String.intercalate ","
          (keys.map (fun k => encodePart k (alookup data k)))
      ++ "\x7d")

/- ════════════════════════════════════════════════════════════════════
   A standard JSON parser (the claim's external observer)
   ════════════════════════════════════════════════════════════════════ -/

/-- The left brace character (written by code point to keep braces out of
string literals). -/
def lbrace : Char := Char.ofNat 123

/-- The right brace character. -/
def rbrace : Char := Char.ofNat 125

/-- Modelled from the JSON standard (RFC 8259), as a stand-in for
`json.loads`: string-body parsing after the opening quote, strict about
control characters (rejected) and escapes (only the two produced by the
encoder are needed for the modelled fragment), returning the unescaped
content and the remainder after the closing quote. -/
def parseStringBody : List Char → Option (List Char × List Char)
  | [] => none
  | c :: cs =>
    if c = '"' then some ([], cs)
    else if c = '\\' then
      match cs with
      | [] => none
      | e :: cs1 =>
        if e = '"' ∨ e = '\\' then
          (parseStringBody cs1).map (fun p => (e :: p.1, p.2))
        else none
    else if c.toNat < 32 then none
    else (parseStringBody cs).map (fun p => (c :: p.1, p.2))

/-- The longest prefix of decimal digits and the remainder. -/
def digitRun : List Char → List Char × List Char
  | [] => ([], [])
  | c :: cs =>
    if c.isDigit then (c :: (digitRun cs).1, (digitRun cs).2)
    else ([], c :: cs)

/-- The natural number denoted by a digit run. -/
def digitsVal (ds : List Char) : Nat :=
  ds.foldl (fun a c => a * 10 + (c.toNat - 48)) 0

/-- Modelled from the JSON standard: the exponent part of a number token
(`e`, an optional sign, a nonempty digit run), returning the consumed
characters and the remainder. -/
def parseExpPart : List Char → Option (List Char × List Char)
  | [] => none
  | c :: r =>
    if c = 'e' then
      match r with
      | [] => none
      | s :: r2 =>
        if s = '+' ∨ s = '-' then
          match digitRun r2 with
          | ([], _) => none
          | (es, r3) => some ('e' :: s :: es, r3)
        else
          match digitRun (s :: r2) with
          | ([], _) => none
          | (es, r3) => some ('e' :: es, r3)
    else none

/-- Modelled from the JSON standard: the fraction and/or exponent part
following the integer digits of a number token (`none` when the number
is an integer literal). -/
def parseFracExp : List Char → Option (List Char × List Char)
  | [] => none
  | c :: r =>
    if c = '.' then
      match digitRun r with
      | ([], _) => none
      | (fs, r2) =>
        match parseExpPart r2 with
        | some (es, r3) => some ('.' :: (fs ++ es), r3)
        | none => some ('.' :: fs, r2)
    else if c = 'e' then parseExpPart (c :: r)
    else none

/-- Modelled from the JSON standard: a number token after the optional
minus sign has been read.  A token with a fraction or exponent part is a
float — `json.loads` applies the decimal → float conversion, modelled by
keeping the token text itself (see `JVal`) — otherwise an integer. -/
def parseNumber (neg : Bool) (s : List Char) : Option (JVal × List Char) :=
  match digitRun s with
  | ([], _) => none
  | (ds, r) =>
    match parseFracExp r with
    | some (fe, r2) =>
      some (.jfloat (String.mk ((if neg then ['-'] else []) ++ (ds ++ fe))),
        r2)
    | none =>
      some (.jint (if neg then -(digitsVal ds : Int) else (digitsVal ds : Int)),
        r)

/-- Modelled from the JSON standard: one scalar value of the flat-object
fragment (`null`, booleans, numbers, strings). -/
def parseValue : List Char → Option (JVal × List Char)
  | [] => none
  | c :: cs =>
    if c = 'n' then
      match cs with
      | 'u' :: 'l' :: 'l' :: r => some (.jnull, r)
      | _ => none
    else if c = 't' then
      match cs with
      | 'r' :: 'u' :: 'e' :: r => some (.jbool true, r)
      | _ => none
    else if c = 'f' then
      match cs with
      | 'a' :: 'l' :: 's' :: 'e' :: r => some (.jbool false, r)
      | _ => none
    else if c = '"' then
      (parseStringBody cs).map (fun p => (.jstr (String.mk p.1), p.2))
    else if c = '-' then
      parseNumber true cs
    else if c.isDigit then
      parseNumber false (c :: cs)
    else none

/-- Modelled from the JSON standard: a nonempty comma-separated member
list, consuming through the closing right brace (`fuel` bounds the member
count). -/
def parseMembers : Nat → List Char → Option (List (String × JVal) × List Char)
  | 0, _ => none
  | fuel + 1, s =>
    match s with
    | '"' :: r =>
      match parseStringBody r with
      | none => none
      | some (k, r1) =>
        match r1 with
        | ':' :: r2 =>
          match parseValue r2 with
          | none => none
          | some (v, r3) =>
            match r3 with
            | ',' :: r4 =>
              match parseMembers fuel r4 with
              | some (ms, r5) => some ((String.mk k, v) :: ms, r5)
              | none => none
            | c :: r4 =>
              if c = rbrace then some ([(String.mk k, v)], r4) else none
            | [] => none
        | _ => none
    | _ => none

/-- Modelled from the JSON standard, restricted to one flat object of
scalar values with nothing after it — the exact shape `fast_encode`
produces for the modelled payloads. -/
def parseJson (s : String) : Option (List (String × JVal)) :=
  match s.data with
  | c :: r =>
    if c = lbrace then
      match r with
      | c2 :: r2 =>
        if c2 = rbrace then (if r2 = [] then some [] else none)
        else
          match parseMembers s.length r with
          | some (ms, rest) => if rest = [] then some ms else none
          | none => none
      | [] => none
    else none
  | [] => none

/-- Single-pass form of the encoder's escaping (proved equal to the
two-pass `escapeJsonChars` below). -/
def escOne : List Char → List Char
  | [] => []
  | c :: cs => (if c = '\\' ∨ c = '"' then ['\\', c] else [c]) ++ escOne cs

/-- The exponent part of a float repr token: `e`, an optional sign, and a
nonempty digit run (CPython emits a signed exponent, e.g. `1e+16`,
`1e-05`; the JSON grammar also admits the unsigned form). -/
def ExpShaped (e : List Char) : Prop :=
  ∃ sgn ds, (sgn = ([] : List Char) ∨ sgn = ['+'] ∨ sgn = ['-'])
    ∧ e = 'e' :: (sgn ++ ds) ∧ ds ≠ [] ∧ ∀ c ∈ ds, c.isDigit = true

/-- What follows the integer digits of a float repr token: a fraction
(nonempty digits after the point, with an optional exponent) or an
exponent alone. -/
def FracExpShaped (t : List Char) : Prop :=
  (∃ fs e, t = '.' :: (fs ++ e) ∧ fs ≠ [] ∧ (∀ c ∈ fs, c.isDigit = true)
    ∧ (e = [] ∨ ExpShaped e))
  ∨ ExpShaped t

/-- The shape of CPython's `repr` of a finite float: an optional minus,
nonempty integer digits, then a fraction and/or an exponent (a finite
float repr always carries at least one of the two — `5.0`, `0.001`,
`-2.5`, `1e+16`, `1.5e-05` — which is also what separates the float
tokens from the int tokens in the JSON grammar). -/
def FloatShaped (l : List Char) : Prop :=
  ∃ (neg : Bool) (ds t : List Char),
    l = (if neg then ['-'] else []) ++ (ds ++ t)
    ∧ ds ≠ [] ∧ (∀ c ∈ ds, c.isDigit = true) ∧ FracExpShaped t

/-- Value payloads whose encoder output is valid strict JSON: string
payloads must hold no character below code point 32 (those need `\uXXXX`
escapes that the encoder never emits), and float payloads must carry a
finite-float repr token (non-finite floats print as `inf`/`nan`, which is
not JSON). -/
def JVal.jsonSafe : JVal → Prop
  | .jstr s => ∀ c ∈ s.data, 32 ≤ c.toNat
  | .jfloat s => FloatShaped s.data
  | _ => True

/- ════════════════════════════════════════════════════════════════════
   CodePathOptimizer  (ishaa/sare_codepath.py, lines 214-366)
   ════════════════════════════════════════════════════════════════════ -/

/-- Embedding of the `CodePathOptimizer` state, polymorphic in the cached
response payload type `V`.  The `_handler_cache` dict (opaque function
references, touched by no operation in the claims' scope) is omitted. -/
structure CodePathOptimizer (V : Type) where
  response_cache : ResponseCache V
  json_encoder : JSONPreEncoder
  memoized_routes : List String
  preencoded_routes : List String
  route_ttls : List (String × Rat)
  cache_bypasses : Nat
  fast_encodes : Nat
  total_requests_seen : Nat
deriving Repr, DecidableEq

/-- Embedding of `CodePathOptimizer.__init__`. -/
def initCodePath (V : Type) (cache_max_size : Nat) (cache_default_ttl : Rat)
    (max_json_templates : Nat) : CodePathOptimizer V :=
  { response_cache := emptyCache V cache_max_size cache_default_ttl,
    json_encoder := initJSONPreEncoder max_json_templates,
    memoized_routes := [], preencoded_routes := [], route_ttls := [],
    cache_bypasses := 0, fast_encodes := 0, total_requests_seen := 0 }

/-- Python `set.add`. -/
def setAdd (s : List String) (x : String) : List String :=
  if x ∈ s then s else s ++ [x]

/-- Embedding of `CodePathOptimizer.enable_memoization`. -/
def CodePathOptimizer.enable_memoization (c : CodePathOptimizer V)
    (route_id : String) (ttl : Option Rat) : CodePathOptimizer V :=
  { c with
    memoized_routes := setAdd c.memoized_routes route_id,
    route_ttls := match ttl with
      | some t => aset c.route_ttls route_id t
      | none => c.route_ttls }

/-- Embedding of `CodePathOptimizer.disable_memoization` (the cache
invalidation removes every entry whose key starts with the route id). -/
def CodePathOptimizer.disable_memoization (c : CodePathOptimizer V)
    (route_id : String) : CodePathOptimizer V :=
  { c with
    memoized_routes := c.memoized_routes.filter (fun r => decide (r ≠ route_id)),
    route_ttls := apop c.route_ttls route_id,
    response_cache := { c.response_cache with
      cache := c.response_cache.cache.filter
        (fun e => !(route_id.isPrefixOf e.key)) } }

/-- Embedding of `CodePathOptimizer.enable_preencoding`. -/
def CodePathOptimizer.enable_preencoding (c : CodePathOptimizer V)
    (route_id : String) : CodePathOptimizer V :=
  { c with preencoded_routes := setAdd c.preencoded_routes route_id }

/-- Embedding of `CodePathOptimizer.build_cache_key`: the truncated sha256
hex digest of `method|path|query_string` is modelled as the identity on the
hashed string (a collision-free stand-in). -/
def buildCacheKey (method path query_string : String) : String :=
  method ++ "|" ++ path ++ "|" ++ query_string

/-- Embedding of `CodePathOptimizer.try_cache_hit`: count the request;
bypass unless the route is memoized and the method is GET or HEAD; else
look up `route_id:key` in the response cache. -/
def CodePathOptimizer.try_cache_hit (c : CodePathOptimizer V) (now : Rat)
    (route_id method path query_string : String) :
    Option V × CodePathOptimizer V :=
  let c1 := { c with total_requests_seen := c.total_requests_seen + 1 }
  if route_id ∉ c1.memoized_routes then
    (none, { c1 with cache_bypasses := c1.cache_bypasses + 1 })
  else if method ∉ (["GET", "HEAD"] : List String) then
    (none, { c1 with cache_bypasses := c1.cache_bypasses + 1 })
  else
    let key := buildCacheKey method path query_string
    let r := c1.response_cache.get now (route_id ++ ":" ++ key)
    (r.1, { c1 with response_cache := r.2 })

/-- Embedding of `CodePathOptimizer.store_response`: write-through only for
memoized routes and GET/HEAD, applying the per-route TTL override if set,
else the cache default. -/
def CodePathOptimizer.store_response (c : CodePathOptimizer V) (now : Rat)
    (route_id method path query_string : String) (response_data : V) :
    CodePathOptimizer V :=
  if route_id ∉ c.memoized_routes then c
  else if method ∉ (["GET", "HEAD"] : List String) then c
  else
    let key := buildCacheKey method path query_string
    let ttl := (alookup c.route_ttls route_id).getD
      c.response_cache.default_ttl
    let rc2 := c.response_cache.put now (route_id ++ ":" ++ key)
      response_data (some ttl)
    { c with response_cache := rc2 }

/-- Embedding of `CodePathOptimizer.try_fast_encode`. -/
def CodePathOptimizer.try_fast_encode (c : CodePathOptimizer V)
    (route_id : String) (data : JDict) :
    Option String × CodePathOptimizer V :=
  if route_id ∉ c.preencoded_routes then (none, c)
  else
    let enc1 := (c.json_encoder.learn_structure route_id data).2
    let result := enc1.fast_encode route_id data
    (result,
     { c with
       json_encoder := enc1,
       fast_encodes := if result.isSome
         then c.fast_encodes + 1 else c.fast_encodes })

/- ════════════════════════════════════════════════════════════════════
   LatencyPredictor  (ishaa/sare_predictor.py)
   ════════════════════════════════════════════════════════════════════ -/

/-- Embedding of the `EWMA` class. -/
structure EWMA where
  alpha : Rat
  value : Rat
  initialized : Bool
deriving Repr, DecidableEq

/-- Embedding of `EWMA.__init__`. -/
def initEWMA (alpha : Rat) : EWMA :=
  { alpha := alpha, value := 0, initialized := false }

/-- Embedding of `EWMA.update`. -/
def EWMA.update (e : EWMA) (sample : Rat) : EWMA :=
  if e.initialized then
    { e with value := e.alpha * sample + (1 - e.alpha) * e.value }
  else
    { e with value := sample, initialized := true }

/-- Embedding of the `TrendDetector` class. -/
structure TrendDetector where
  window_size : Nat
  values : List Rat
  timestamps : List Rat
deriving Repr, DecidableEq

/-- Embedding of `TrendDetector.__init__` . -/
def initTrend (window_size : Nat) : TrendDetector :=
  { window_size := window_size, values := [], timestamps := [] }

/-- Embedding of `TrendDetector.add` (`ts or time.monotonic()` is the
explicit `now`). -/
def TrendDetector.add (t : TrendDetector) (value now : Rat) : TrendDetector :=
  { t with
    values := dqPush t.window_size t.values value,
    timestamps := dqPush t.window_size t.timestamps now }

/-- Embedding of `TrendDetector.slope`: simple linear regression over
`x = 0, 1, ..., n-1` against the stored values. -/
def TrendDetector.slope (t : TrendDetector) : Rat :=
  let n := t.values.length
  if n < 3 then 0
  else
    let x_vals := (List.range n).map (fun i => (i : Rat))
    let y_vals := t.values
    let x_mean := x_vals.sum / (n : Rat)
    let y_mean := y_vals.sum / (n : Rat)
    let numerator := ((x_vals.zip y_vals).map
      (fun p => (p.1 - x_mean) * (p.2 - y_mean))).sum
    let denominator := (x_vals.map (fun x => (x - x_mean) ^ 2)).sum
    if denominator = 0 then 0 else numerator / denominator

/-- Embedding of `TrendDetector.predict_next`. -/
def TrendDetector.predict_next (t : TrendDetector) (steps_ahead : Nat) :
    Rat :=
  if t.values.length = 0 then 0
  else if t.values.length < 3 then t.values.getLastD 0
  else t.values.getLastD 0 + t.slope * (steps_ahead : Rat)

/-- Embedding of the `SpikeDetector` state.  Its `is_spike` return value
(computed with a floating-point square root and used only for a log line in
`LatencyPredictor.update`) is not modelled; `addValue` captures the state
change of `SpikeDetector.add`. -/
structure SpikeDetector where
  window_size : Nat
  z_threshold : Rat
  values : List Rat
deriving Repr, DecidableEq

/-- Embedding of `SpikeDetector.__init__`. -/
def initSpike : SpikeDetector :=
  { window_size := 100, z_threshold := 2.5, values := [] }

/-- The state change of `SpikeDetector.add`. -/
def SpikeDetector.addValue (s : SpikeDetector) (value : Rat) :
    SpikeDetector :=
  { s with values := dqPush s.window_size s.values value }

/-- Embedding of the `RouteStrategy` dataclass. -/
structure RouteStrategy where
  route_key : String
  cache_reward : Rat
  async_reward : Rat
  precompile_reward : Rat
  observations : Nat
deriving Repr, DecidableEq

/-- Embedding of `RouteStrategy.__init__` (dataclass defaults). -/
def initStrategy (route_key : String) : RouteStrategy :=
  { route_key := route_key, cache_reward := 0, async_reward := 0,
    precompile_reward := 0, observations := 0 }

/-- Embedding of `RouteStrategy.update_reward` (learning rate 0.1, the
default used by every caller). -/
def RouteStrategy.update_reward (s : RouteStrategy) (strategy : String)
    (reward : Rat) : RouteStrategy :=
  let s1 := { s with observations := s.observations + 1 }
  if strategy = "cache" then
    { s1 with cache_reward := s1.cache_reward
        + 0.1 * (reward - s1.cache_reward) }
  else if strategy = "async_priority" then
    { s1 with async_reward := s1.async_reward
        + 0.1 * (reward - s1.async_reward) }
  else if strategy = "precompile" then
    { s1 with precompile_reward := s1.precompile_reward
        + 0.1 * (reward - s1.precompile_reward) }
  else s1

/-- Embedding of `LatencyPredictor._update_strategy_rewards`. -/
def updateStrategyRewards (rm : RouteMetrics) (s : RouteStrategy) :
    RouteStrategy :=
  let s1 := if rm.error_rate < 0.01 ∧ rm.requests_per_second > 2
    then s.update_reward "cache" 1.0
    else s.update_reward "cache" (-0.2)
  let s2 := if rm.avg_latency > 0.1
    then s1.update_reward "async_priority" 0.8
    else s1.update_reward "async_priority" (-0.1)
  if rm.heat_score > 0.5 then s2.update_reward "precompile" 1.0
  else if rm.heat_score > 0.2 then s2.update_reward "precompile" 0.3
  else s2.update_reward "precompile" (-0.3)

/-- Embedding of the `LatencyPredictor` state.  The analyzer reference is
passed to `update` as the current route-metrics list instead of being
stored; the `_predictions` / `_prediction_accuracy` deques are written by
no method and are omitted. -/
structure LatencyPredictor where
  rps_ewma : List (String × EWMA)
  latency_ewma : List (String × EWMA)
  rps_trend : List (String × TrendDetector)
  latency_trend : List (String × TrendDetector)
  spike_detectors : List (String × SpikeDetector)
  strategies : List (String × RouteStrategy)
deriving Repr, DecidableEq

/-- Embedding of `LatencyPredictor.__init__`. -/
def initPredictor : LatencyPredictor :=
  { rps_ewma := [], latency_ewma := [], rps_trend := [],
    latency_trend := [], spike_detectors := [], strategies := [] }

/-- The per-route body of `LatencyPredictor.update`: lazily create the
route's predictors (EWMA alpha 0.3, trend window 30), then feed the
current RPS and average latency into them and update the strategy
rewards. -/
def LatencyPredictor.update_route (p : LatencyPredictor) (now : Rat)
    (rm : RouteMetrics) : LatencyPredictor :=
  let route_id := rm.method ++ " " ++ rm.path
  let p1 := match alookup p.rps_ewma route_id with
    | none =>
      { p with
        rps_ewma := p.rps_ewma ++ [(route_id, initEWMA 0.3)],
        latency_ewma := p.latency_ewma ++ [(route_id, initEWMA 0.3)],
        rps_trend := p.rps_trend ++ [(route_id, initTrend 30)],
        latency_trend := p.latency_trend ++ [(route_id, initTrend 30)],
        spike_detectors := p.spike_detectors ++ [(route_id, initSpike)],
        strategies := p.strategies ++ [(route_id, initStrategy route_id)] }
    | some _ => p
  { p1 with
    rps_ewma := amodify p1.rps_ewma route_id
      (fun e => e.update rm.requests_per_second),
    latency_ewma := amodify p1.latency_ewma route_id
      (fun e => e.update rm.avg_latency),
    rps_trend := amodify p1.rps_trend route_id
      (fun t => t.add rm.requests_per_second now),
    latency_trend := amodify p1.latency_trend route_id
      (fun t => t.add rm.avg_latency now),
    spike_detectors := amodify p1.spike_detectors route_id
      (fun s => s.addValue rm.requests_per_second),
    strategies := amodify p1.strategies route_id
      (updateStrategyRewards rm) }

/-- Embedding of `LatencyPredictor.update`, over the analyzer's current
route-metrics values. -/
def LatencyPredictor.update (p : LatencyPredictor)
    (route_metrics : List RouteMetrics) (now : Rat) : LatencyPredictor :=
  route_metrics.foldl (fun p rm => p.update_route now rm) p

/-- Embedding of `LatencyPredictor.predict_rps`: `None` for a never-seen
route, else the trend/EWMA blend with trend weight
`min(steps_ahead / 12.0, 0.7)`, clamped to ≥ 0. -/
def LatencyPredictor.predict_rps (p : LatencyPredictor) (route_id : String)
    (steps_ahead : Nat) : Option Rat :=
  match alookup p.rps_trend route_id, alookup p.rps_ewma route_id with
  | some trend, some ewma =>
    let trend_pred := trend.predict_next steps_ahead
    let ewma_pred := ewma.value
    let weight := min ((steps_ahead : Rat) / 12) 0.7
    some (max 0 (trend_pred * weight + ewma_pred * (1 - weight)))
  | _, _ => none

/-- Embedding of `LatencyPredictor.predict_latency`. -/
def LatencyPredictor.predict_latency (p : LatencyPredictor)
    (route_id : String) (steps_ahead : Nat) : Option Rat :=
  match alookup p.latency_trend route_id, alookup p.latency_ewma route_id with
  | some trend, some ewma =>
    let trend_pred := trend.predict_next steps_ahead
    let ewma_pred := ewma.value
    let weight := min ((steps_ahead : Rat) / 12) 0.7
    some (max 0 (trend_pred * weight + ewma_pred * (1 - weight)))
  | _, _ => none

/-- A sequence of `LatencyPredictor.update` calls, each with the analyzer's
route-metrics values at that moment and the call time. -/
def updateAll (p : LatencyPredictor)
    (batches : List (List RouteMetrics × Rat)) : LatencyPredictor :=
  batches.foldl (fun p b => p.update b.1 b.2) p

/-- Whether any update batch contained the route `r` (by its
`"METHOD path"` id), i.e. whether the predictor has updated `r` at least
once. -/
def routeSeen (batches : List (List RouteMetrics × Rat)) (r : String) :
    Bool :=
  batches.any (fun b => b.1.any
    (fun rm => decide (r = rm.method ++ " " ++ rm.path)))

/- ════════════════════════════════════════════════════════════════════
   AdaptiveOptimizer  (isha/sare_optimizer.py)
   ════════════════════════════════════════════════════════════════════ -/

/-- One optimization action of the evolution log.  The human-readable
`detail` string (route lists and `%.2f`-formatted shift values) is
elided; the claims only concern action types and counts. -/
structure OptAction where
  type : String
deriving Repr, DecidableEq

/-- One evolution-log entry `{cycle, ts, actions}`. -/
structure EvolutionEntry where
  cycle : Nat
  ts : Rat
  actions : List OptAction
deriving Repr, DecidableEq

/-- Embedding of the `AdaptiveOptimizer` state (the analyzer reference is
passed to the cycle functions as the data they query instead of being
stored). -/
structure AdaptiveOptimizer where
  optimize_interval : Rat
  hot_route_slots : Nat
  reorder_threshold : Rat
  hot_route_cache : List ((String × String) × Rat)
  optimal_mw_order : Option (List String)
  mw_order_changed : Bool
  evolution_log : List EvolutionEntry
  optimization_count : Nat
  last_optimize : Rat
  route_caching_enabled : Bool
  middleware_reorder_enabled : Bool
deriving Repr, DecidableEq

/-- Embedding of `AdaptiveOptimizer.__init__`. -/
def initOptimizer (optimize_interval : Rat) (hot_route_slots : Nat)
    (reorder_threshold : Rat) : AdaptiveOptimizer :=
  { optimize_interval := optimize_interval,
    hot_route_slots := hot_route_slots,
    reorder_threshold := reorder_threshold, hot_route_cache := [],
    optimal_mw_order := none, mw_order_changed := false,
    evolution_log := [], optimization_count := 0, last_optimize := 0,
    route_caching_enabled := true, middleware_reorder_enabled := true }

/-- Embedding of `AdaptiveOptimizer._optimize_hot_routes`, over the
already-fetched `get_hot_routes` result: keep the routes with heat above
the 0.1 threshold as the new hot cache, log a promote action if any key
entered and a demote action if any left. -/
def optimizeHotRoutes (opt : AdaptiveOptimizer)
    (hot_routes : List RouteMetrics) : AdaptiveOptimizer × List OptAction :=
  let new_cache := (hot_routes.filter
      (fun rm => decide (rm.heat_score > 0.1))).map
     (fun rm => ((rm.method, rm.path), rm.heat_score))
  let old_keys := opt.hot_route_cache.map Prod.fst
  let new_keys := new_cache.map Prod.fst
  let promoted := new_keys.filter (fun k => decide (k ∉ old_keys))
  let demoted := old_keys.filter (fun k => decide (k ∉ new_keys))
  let actions := (if promoted ≠ [] then [OptAction.mk "route_promote"] else [])
    ++ (if demoted ≠ [] then [OptAction.mk "route_demote"] else [])
  ({ opt with hot_route_cache := new_cache }, actions)

/-- Embedding of `AdaptiveOptimizer.is_hot_route`. -/
def AdaptiveOptimizer.is_hot_route (opt : AdaptiveOptimizer)
    (method path_pattern : String) : Bool :=
  (alookup opt.hot_route_cache (method.toUpper, path_pattern)).isSome

/-- The middleware score from `_optimize_middleware_order`:
`short_circuit_rate * 3.0 + max(0, 1.0 - avg_latency * 10.0)`. -/
def mwScore (mm : MiddlewareMetrics) : Rat :=
  mm.short_circuit_rate * 3 + max 0 (1 - mm.avg_latency * 10)

/-- The `old_scores` dict of `_optimize_middleware_order`:
`{name: i for i, name in enumerate(order)}` — the index of the last
occurrence of `name` in `order`. -/
def lookupIdx (order : List String) (name : String) : Option Nat :=
  ((order.enum.reverse).find? (fun p => decide (p.2 = name))).map
    (fun p => p.1)

/-- The maximal index shift between the old and the new middleware order:
`max(abs(new_idx - old_scores.get(name, new_idx)) for new_idx, name in
enumerate(new_order))` (a name absent from the old order defaults to its
own new index, i.e. shift 0). -/
def maxShift (old new_order : List String) : Nat :=
  (new_order.enum.map (fun p =>
    match lookupIdx old p.2 with
    | some j => max p.1 j - min p.1 j
    | none => 0)).foldl max 0

/-- The scoring-and-sort head of `_optimize_middleware_order`: score every
middleware, sort descending by score (Python's stable sort — `mergeSort`
with `b.2 ≤ a.2` keeps the original dict order on ties), and take the
names. -/
def newMwOrder (mw_metrics : List (String × MiddlewareMetrics)) :
    List String :=
  let scored := mw_metrics.map (fun p => (p.1, mwScore p.2))
  let sorted := scored.mergeSort (fun a b => b.2 ≤ a.2)
  sorted.map Prod.fst

/-- The `max_shift / max(len(new_order), 1)` normalization of
`_optimize_middleware_order`. -/
def normalizedShift (old new_order : List String) : Rat :=
  (maxShift old new_order : Rat) / ((max new_order.length 1 : Nat) : Rat)

/-- Embedding of `AdaptiveOptimizer._optimize_middleware_order`, over the
already-fetched middleware-metrics dict: adopt the scored order if none
exists yet, and otherwise reorder only when the normalized maximal shift
reaches `reorder_threshold`. -/
def optimizeMiddlewareOrder (opt : AdaptiveOptimizer)
    (mw_metrics : List (String × MiddlewareMetrics)) :
    AdaptiveOptimizer × List OptAction :=
  if mw_metrics.length < 2 then (opt, [])
  else
    let new_order := newMwOrder mw_metrics
    match opt.optimal_mw_order with
    | none =>
      ({ opt with
          optimal_mw_order := some new_order,
          mw_order_changed := true },
       [OptAction.mk "middleware_initial_order"])
    | some old =>
      if new_order ≠ old then
        if normalizedShift old new_order ≥ opt.reorder_threshold then
          ({ opt with
              mw_order_changed := true,
              optimal_mw_order := some new_order },
           [OptAction.mk "middleware_reorder"])
        else
          ({ opt with mw_order_changed := false }, [])
      else (opt, [])

/-- Embedding of `AdaptiveOptimizer.get_optimal_middleware_order`. -/
def AdaptiveOptimizer.get_optimal_middleware_order
    (opt : AdaptiveOptimizer) : Option (List String) :=
  opt.optimal_mw_order

/-- The analyzer queries made by an optimization cycle, as possibly-failing
computations: `run_optimization_cycle` has no `try`/`except`, so the
embedding sequences its statements in the exception monad and a failure of
either query must flow to the caller. -/
structure AnalyzerQueries (ε : Type) where
  hot_routes : Except ε (List RouteMetrics)
  middleware_metrics : Except ε (List (String × MiddlewareMetrics))

/-- Embedding of `AdaptiveOptimizer.run_optimization_cycle`: stamp the
cycle, run the two enabled sub-steps (each aborting the whole call on an
exception, since the source installs no handler), and append one
evolution-log entry when any action was produced. -/
def run_optimization_cycle (ε : Type) (q : AnalyzerQueries ε)
    (opt : AdaptiveOptimizer) (now : Rat) : Except ε AdaptiveOptimizer := do
  let opt1 := { opt with
    last_optimize := now,
    optimization_count := opt.optimization_count + 1 }
  let step1 ←
    if opt1.route_caching_enabled then do
      let hot ← q.hot_routes
      pure (optimizeHotRoutes opt1 hot)
    else pure (opt1, [])
  let step2 ←
    if step1.1.middleware_reorder_enabled then do
      let mw ← q.middleware_metrics
      pure (optimizeMiddlewareOrder step1.1 mw)
    else pure (step1.1, [])
  let cycle_actions := step1.2 ++ step2.2
  if cycle_actions ≠ [] then
    pure { step2.1 with evolution_log := step2.1.evolution_log
      ++ [EvolutionEntry.mk step2.1.optimization_count now cycle_actions] }
  else
    pure step2.1

/-- Embedding of `AdaptiveOptimizer.maybe_optimize`. -/
def maybe_optimize (ε : Type) (q : AnalyzerQueries ε)
    (opt : AdaptiveOptimizer) (now : Rat) : Except ε AdaptiveOptimizer :=
  if now - opt.last_optimize < opt.optimize_interval then .ok opt
  else run_optimization_cycle ε q opt now

/- ════════════════════════════════════════════════════════════════════
   SARE facade  (ishaa/sare.py)
   ════════════════════════════════════════════════════════════════════ -/

/-- Embedding of the `SARE` facade state.  The `IntelligenceReporter` holds
only references to the other components (no own mutable state) and is
omitted. -/
structure SARE (V : Type) where
  analyzer : TrafficAnalyzer
  optimizer : AdaptiveOptimizer
  predictor : LatencyPredictor
  predictor_enabled : Bool
  codepath : CodePathOptimizer V
  auto_memoize : Bool
  auto_memoize_rps_threshold : Rat
  auto_memoize_error_threshold : Rat
  enabled : Bool
deriving Repr, DecidableEq

/-- Embedding of `SARE.reset`: reset the traffic analyzer and clear the
response cache; nothing else is touched. -/
def SARE.reset (s : SARE V) : SARE V :=
  { s with
    analyzer := s.analyzer.reset,
    codepath := { s.codepath with
      response_cache := s.codepath.response_cache.clear } }

/- ════════════════════════════════════════════════════════════════════
   Theorems
   ════════════════════════════════════════════════════════════════════ -/

/- Helper lemmas about the cache's ordered-dict representation. -/

theorem cacheKeys_append (c : List (CacheEntry V)) (e : CacheEntry V) :
    cacheKeys (c ++ [e]) = cacheKeys c ++ [e.key] := by
  simp [cacheKeys]

theorem cacheKeys_removeKey (c : List (CacheEntry V)) (k : String) :
    cacheKeys (removeKey c k) = (cacheKeys c).filter (fun s => s != k) := by
  induction c with
  | nil => rfl
  | cons e c ih =>
    by_cases h : e.key = k
    · simp [removeKey, cacheKeys, List.filter_cons, h] at *
      simpa [removeKey, cacheKeys] using ih
    · simp [removeKey, cacheKeys, List.filter_cons, h] at *
      simpa [removeKey, cacheKeys] using ih

theorem not_mem_filter_ne (l : List String) (k : String) :
    k ∉ l.filter (fun s => s != k) := by
  intro h
  have := List.of_mem_filter h
  simp at this

theorem removeKey_of_not_mem (c : List (CacheEntry V)) (k : String)
    (h : k ∉ cacheKeys c) : removeKey c k = c := by
  apply List.filter_eq_self.mpr
  intro e he
  simp only [bne_iff_ne, ne_eq, decide_eq_true_eq]
  intro hek
  exact h (hek ▸ List.mem_map_of_mem (fun x => x.key) he)

theorem put_cache_length_le (rc : ResponseCache V) (now : Rat) (k : String)
    (d : V) (t : Option Rat) : (rc.put now k d t).cache.length ≤ rc.max_size := by
  simp [ResponseCache.put]
  omega

theorem put_cache_of_fresh (rc : ResponseCache V) (now : Rat) (k : String)
    (d : V) (hk : k ∉ cacheKeys rc.cache)
    (hlen : rc.cache.length + 1 ≤ rc.max_size) :
    (rc.put now k d none).cache
      = rc.cache ++ [⟨k, d, now + rc.default_ttl⟩] := by
  simp only [ResponseCache.put, Option.getD, removeKey_of_not_mem rc.cache k hk]
  have h1 : (rc.cache ++ [(⟨k, d, now + rc.default_ttl⟩ : CacheEntry V)]).length
      - rc.max_size = 0 := by
    simp
    omega
  rw [h1, List.drop_zero]

theorem putAll_max_size (now : Rat) (v : String → V) (ks : List String) :
    ∀ rc : ResponseCache V, (putAll rc now v ks).max_size = rc.max_size := by
  induction ks with
  | nil => intro rc; rfl
  | cons k ks ih => intro rc; exact ih (rc.put now k (v k) none)

theorem putAll_keys_of_no_evict (now : Rat) (v : String → V) :
    ∀ (ks : List String) (rc : ResponseCache V),
      (cacheKeys rc.cache ++ ks).Nodup →
      rc.cache.length + ks.length ≤ rc.max_size →
      cacheKeys (putAll rc now v ks).cache = cacheKeys rc.cache ++ ks := by
  intro ks
  induction ks with
  | nil =>
    intro rc _ _
    simp [putAll]
  | cons k ks ih =>
    intro rc hnd hlen
    have hassoc : cacheKeys rc.cache ++ k :: ks
        = (cacheKeys rc.cache ++ [k]) ++ ks := by
      simp
    have hk : k ∉ cacheKeys rc.cache := by
      rcases List.nodup_append.mp hnd with ⟨-, -, hdisj⟩
      intro hmem
      exact hdisj hmem (List.mem_cons_self k ks)
    have hput : (rc.put now k (v k) none).cache
        = rc.cache ++ [⟨k, v k, now + rc.default_ttl⟩] := by
      apply put_cache_of_fresh rc now k (v k) hk
      simp at hlen
      omega
    have hkeys : cacheKeys (rc.put now k (v k) none).cache
        = cacheKeys rc.cache ++ [k] := by
      rw [hput, cacheKeys_append]
    have hmax : (rc.put now k (v k) none).max_size = rc.max_size := rfl
    have hstep : putAll rc now v (k :: ks)
        = putAll (rc.put now k (v k) none) now v ks := rfl
    rw [hstep, hassoc]
    rw [ih (rc.put now k (v k) none) (by rw [hkeys, ← hassoc]; exact hnd)
      (by
        have hl : (rc.put now k (v k) none).cache.length
            = rc.cache.length + 1 := by
          rw [hput]; simp
        rw [hl, hmax]
        simp at hlen ⊢
        omega)]
    rw [hkeys]

/-- C3, counterexample: `ResponseCache.put` does not run an expired-entry
pass before LRU eviction.  With `max_size = 2`, insert `k1` (expires at 100)
then `k2` (expires at 1); at time 2 — when `k2`'s expiry has passed and
`k1`'s has not — insert `k3`.  The over-capacity eviction removes the
least-recently-used `k1` and keeps the already-expired `k2`, contradicting
the claim that already-expired entries are removed first. -/
theorem c3_counterexample :
    cacheLookup ((((emptyCache Nat 2 30).put 0 "k1" 1 (some 100)).put 0
        "k2" 2 (some 1)).put 2 "k3" 3 (some 100)).cache "k1" = none ∧
    cacheLookup ((((emptyCache Nat 2 30).put 0 "k1" 1 (some 100)).put 0
        "k2" 2 (some 1)).put 2 "k3" 3 (some 100)).cache "k2" = some (2, 1) ∧
    (1 : Rat) < 2 ∧ (2 : Rat) < 100 := by
  refine ⟨?_, ?_, by norm_num, by norm_num⟩
  · simp [emptyCache, ResponseCache.put, cacheLookup, removeKey]
  · simp [emptyCache, ResponseCache.put, cacheLookup, removeKey]

/-- C3 (amended): `ResponseCache.put` evicts purely by least-recently-used
order (no expired-first pass): after every `put` at most `max_size` entries
remain, and inserting `max_size + 1` distinct keys into a fresh cache leaves
exactly `max_size` entries, the least-recently-inserted key being the one
evicted (the surviving keys are `ks.tail`). -/
theorem c3_put_bounded_lru_eviction (V : Type) (m : Nat) (ttl now : Rat)
    (v : String → V) (ks : List String) (hnd : ks.Nodup)
    (hlen : ks.length = m + 1) :
    (∀ (rc : ResponseCache V) (n : Rat) (k : String) (d : V) (t : Option Rat),
        (rc.put n k d t).cache.length ≤ rc.max_size) ∧
    cacheKeys (putAll (emptyCache V m ttl) now v ks).cache = ks.tail := by
  constructor
  · intro rc n k d t
    exact put_cache_length_le rc n k d t
  · have hsplit : ks.take m ++ ks.drop m = ks := List.take_append_drop m ks
    have hdroplen : (ks.drop m).length = 1 := by
      rw [List.length_drop, hlen]
      omega
    rcases List.length_eq_one.mp hdroplen with ⟨klast, hklast⟩
    have htakelen : (ks.take m).length = m := by
      rw [List.length_take, hlen]
      omega
    have hstep : putAll (emptyCache V m ttl) now v ks
        = putAll (putAll (emptyCache V m ttl) now v (ks.take m)) now v
            (ks.drop m) := by
      unfold putAll
      conv_lhs => rw [← hsplit]
      rw [List.foldl_append]
    have hnd' : (ks.take m ++ ks.drop m).Nodup := by rw [hsplit]; exact hnd
    have hkeys1 : cacheKeys (putAll (emptyCache V m ttl) now v
        (ks.take m)).cache = ks.take m := by
      have := putAll_keys_of_no_evict now v (ks.take m) (emptyCache V m ttl)
        (by simpa [emptyCache, cacheKeys] using
          (List.Nodup.sublist (List.take_sublist m ks) hnd))
        (by simp [emptyCache, htakelen])
      simpa [emptyCache, cacheKeys] using this
    set rc1 := putAll (emptyCache V m ttl) now v (ks.take m) with hrc1
    have hmax1 : rc1.max_size = m := by
      rw [hrc1, putAll_max_size]
      rfl
    have hlen1 : rc1.cache.length = m := by
      have := congrArg List.length hkeys1
      simpa [cacheKeys, htakelen] using this
    have hklastnot : klast ∉ cacheKeys rc1.cache := by
      rw [hkeys1]
      rcases List.nodup_append.mp hnd' with ⟨-, -, hdisj⟩
      intro hmem
      exact hdisj hmem (by rw [hklast]; exact List.mem_cons_self klast [])
    have hfinal : (rc1.put now klast (v klast) none).cache
        = (rc1.cache
            ++ [CacheEntry.mk klast (v klast) (now + rc1.default_ttl)]).drop 1 := by
      simp only [ResponseCache.put, Option.getD]
      rw [removeKey_of_not_mem rc1.cache klast hklastnot]
      congr 1
      simp [hmax1, hlen1]
    rw [hstep, hklast]
    have hone : putAll rc1 now v [klast] = rc1.put now klast (v klast) none := rfl
    rw [hone]
    have hckeys : cacheKeys (rc1.put now klast (v klast) none).cache
        = (cacheKeys rc1.cache ++ [klast]).drop 1 := by
      rw [hfinal]
      unfold cacheKeys
      rw [List.map_drop]
      simp
    rw [hckeys, hkeys1]
    have : ks.take m ++ [klast] = ks := by rw [← hklast, hsplit]
    rw [this, List.drop_one]

/-- C3, witness: instantiating the amended eviction theorem at `max_size = 2`
with the three distinct keys a, b, c: the oldest key a is evicted. -/
theorem c3_witness :
    cacheKeys (putAll (emptyCache Nat 2 30) 0 (fun _ => 0)
      ["a", "b", "c"]).cache = ["b", "c"] :=
  (c3_put_bounded_lru_eviction Nat 2 30 0 (fun _ => 0) ["a", "b", "c"]
    (by decide) (by decide)).2

/-- C4: `ResponseCache.get` never returns a value whose expiry has passed.
It returns the stored value exactly when the key is present and the current
time does not exceed the entry's expiry; a present-but-expired lookup deletes
the entry, counts a miss and returns `none`; a non-expired hit moves the key
to the most-recently-used (rightmost) position and counts a hit; an absent
key counts a miss. -/
theorem c4_get_never_returns_expired (V : Type) (rc : ResponseCache V)
    (now : Rat) (k : String) :
    (∀ d : V, (rc.get now k).1 = some d →
        ∃ exp : Rat, cacheLookup rc.cache k = some (d, exp) ∧ now ≤ exp) ∧
    (∀ (d : V) (exp : Rat), cacheLookup rc.cache k = some (d, exp) →
      now ≤ exp →
        (rc.get now k).1 = some d ∧
        cacheKeys (rc.get now k).2.cache
          = (cacheKeys rc.cache).filter (fun s => s != k) ++ [k] ∧
        (rc.get now k).2.hits = rc.hits + 1) ∧
    (∀ (d : V) (exp : Rat), cacheLookup rc.cache k = some (d, exp) →
      now > exp →
        (rc.get now k).1 = none ∧ k ∉ cacheKeys (rc.get now k).2.cache ∧
        (rc.get now k).2.misses = rc.misses + 1) ∧
    (cacheLookup rc.cache k = none →
        (rc.get now k).1 = none ∧ (rc.get now k).2.misses = rc.misses + 1) := by
  refine ⟨?_, ?_, ?_, ?_⟩
  · intro d hd
    rcases heq : cacheLookup rc.cache k with - | ⟨d', exp⟩
    · simp [ResponseCache.get, heq] at hd
    · by_cases hexp : now > exp
      · simp [ResponseCache.get, heq, hexp] at hd
      · refine ⟨exp, ?_, not_lt.mp hexp⟩
        simp [ResponseCache.get, heq, hexp] at hd
        subst hd
        rfl
  · intro d exp heq hle
    have hexp : ¬ now > exp := not_lt.mpr hle
    refine ⟨by simp [ResponseCache.get, heq, hexp], ?_,
      by simp [ResponseCache.get, heq, hexp]⟩
    simp [ResponseCache.get, heq, hexp]
    rw [cacheKeys_append, cacheKeys_removeKey]
  · intro d exp heq hgt
    refine ⟨by simp [ResponseCache.get, heq, hgt], ?_,
      by simp [ResponseCache.get, heq, hgt]⟩
    simp only [ResponseCache.get, heq, hgt, if_pos]
    rw [cacheKeys_removeKey]
    exact not_mem_filter_ne (cacheKeys rc.cache) k
  · intro heq
    exact ⟨by simp [ResponseCache.get, heq], by simp [ResponseCache.get, heq]⟩

/- Helper lemmas for the heat-score bound (claim C2). -/

theorem mem_dqPush (cap : Nat) (xs : List α) (x y : α)
    (h : y ∈ dqPush cap xs x) : y ∈ xs ∨ y = x := by
  have hm : y ∈ xs ++ [x] := List.mem_of_mem_drop h
  rcases List.mem_append.mp hm with h1 | h2
  · exact Or.inl h1
  · exact Or.inr (List.mem_singleton.mp h2)

theorem recordAll_append (capL capE : Nat) (p m : String)
    (es : List RMEvent) (e : RMEvent) :
    recordAll capL capE p m (es ++ [e])
      = (recordAll capL capE p m es).record capL capE e.now e.lat e.status
          e.size := by
  unfold recordAll
  rw [List.foldl_append]
  rfl

theorem recordAll_latencies_mem (capL capE : Nat) (p m : String)
    (es : List RMEvent) :
    ∀ x : Rat, x ∈ (recordAll capL capE p m es).latencies →
      ∃ e ∈ es, x = e.lat := by
  induction es using List.reverseRecOn with
  | nil =>
    intro x hx
    simp [recordAll, initRouteMetrics] at hx
  | append_singleton es e ih =>
    intro x hx
    rw [recordAll_append] at hx
    simp only [RouteMetrics.record] at hx
    rcases mem_dqPush _ _ _ _ hx with h1 | h2
    · rcases ih x h1 with ⟨e', he', hx'⟩
      exact ⟨e', by simp [he'], hx'⟩
    · exact ⟨e, by simp, h2⟩

theorem recordAll_heat_score (capL capE : Nat) (p m : String)
    (es : List RMEvent) : (recordAll capL capE p m es).heat_score = 0 := by
  induction es using List.reverseRecOn with
  | nil => rfl
  | append_singleton es e ih =>
    rw [recordAll_append]
    simpa [RouteMetrics.record] using ih

theorem heatScore_bounds (rps avg err : Rat) (h1 : 0 ≤ rps) (h2 : 0 ≤ avg)
    (h3 : 0 ≤ err) : 0 ≤ heatScore rps avg err ∧ heatScore rps avg err ≤ 1 := by
  simp only [heatScore]
  have hf0 : 0 ≤ min (rps / 10) 1 := le_min (by positivity) zero_le_one
  have hf1 : min (rps / 10) 1 ≤ 1 := min_le_right _ _
  have hl0 : 0 ≤ max 0 (1 - avg / 2) := le_max_left _ _
  have hl1 : max 0 (1 - avg / 2) ≤ 1 := by
    apply max_le zero_le_one
    have : 0 ≤ avg / 2 := by positivity
    linarith
  have hp0 : 0 ≤ 1 - min (err * 2) 1 := by
    have := min_le_right (err * 2) 1
    linarith
  have hp1 : 1 - min (err * 2) 1 ≤ 1 := by
    have : 0 ≤ min (err * 2) 1 := le_min (by positivity) zero_le_one
    linarith
  constructor <;> linarith

theorem compute_snapshot_heat_mem (rm : RouteMetrics) (now : Rat)
    (hlat : ∀ x ∈ rm.latencies, 0 ≤ x)
    (h0 : 0 ≤ rm.heat_score ∧ rm.heat_score ≤ 1) :
    0 ≤ (rm.compute_snapshot now).heat_score ∧
      (rm.compute_snapshot now).heat_score ≤ 1 := by
  by_cases hemp : rm.latencies = []
  · simpa [RouteMetrics.compute_snapshot, hemp] using h0
  · simp only [RouteMetrics.compute_snapshot, if_neg hemp]
    apply heatScore_bounds
    · split
      · exact le_refl 0
      · positivity
    · have hperm := List.mergeSort_perm rm.latencies (fun a b => decide (a ≤ b))
      have hsum : 0 ≤ (rm.latencies.mergeSort (fun a b => decide (a ≤ b))).sum := by
        rw [hperm.sum_eq]
        exact List.sum_nonneg hlat
      unfold listMean
      positivity
    · split
      · positivity
      · exact le_refl 0

/-- C2 (amended): for every sequence of `RouteMetrics.record` calls whose
latency inputs are nonnegative (latencies are durations; status codes,
response sizes and timestamps remain arbitrary), the heat score computed by
`compute_snapshot` lies in the interval [0, 1].  (The unamended claim —
arbitrary, possibly negative, latency inputs — is refuted by
the counterexample: the code never clamps the composite score and a negative
mean latency pushes `latency_score` above 1.) -/
theorem c2_heat_score_in_unit_interval (capL capE : Nat) (p m : String)
    (events : List RMEvent) (t : Rat) (hlat : ∀ e ∈ events, 0 ≤ e.lat) :
    0 ≤ ((recordAll capL capE p m events).compute_snapshot t).heat_score ∧
      ((recordAll capL capE p m events).compute_snapshot t).heat_score ≤ 1 := by
  apply compute_snapshot_heat_mem
  · intro x hx
    rcases recordAll_latencies_mem capL capE p m events x hx with ⟨e, he, hxe⟩
    exact hxe ▸ hlat e he
  · rw [recordAll_heat_score]
    exact ⟨le_refl 0, by norm_num⟩

/-- C2, witness: two records (statuses 200 and 500, latencies 5 and 3,
timestamps 0 and 1) followed by a snapshot at time 2 give a heat score
inside the unit interval. -/
theorem c2_witness :
    0 ≤ ((recordAll 1000 500 "/x" "GET"
        [⟨0, 5, 200, 0⟩, ⟨1, 3, 500, 0⟩]).compute_snapshot 2).heat_score ∧
      ((recordAll 1000 500 "/x" "GET"
        [⟨0, 5, 200, 0⟩, ⟨1, 3, 500, 0⟩]).compute_snapshot 2).heat_score ≤ 1 :=
  c2_heat_score_in_unit_interval 1000 500 "/x" "GET"
    [⟨0, 5, 200, 0⟩, ⟨1, 3, 500, 0⟩] 2
    (by intro e he; simp only [List.mem_cons, List.not_mem_nil, or_false] at he
        rcases he with rfl | rfl <;> norm_num)

/-- C2, counterexample: a single record with (physically impossible but
type-admissible) negative latency −10 makes the composite heat score exceed
the claimed upper bound 1: `compute_snapshot` never clamps it. -/
theorem c2_counterexample :
    1 < ((recordAll 1000 500 "/x" "GET"
        [⟨0, -10, 200, 0⟩]).compute_snapshot 0).heat_score := by
  norm_num [recordAll, initRouteMetrics, RouteMetrics.record,
    RouteMetrics.compute_snapshot, dqPush, listMean, heatScore,
    List.mergeSort_singleton]

/- Helper lemmas about dict (association-list) lookup and update, used for
the traffic-analyzer counter claims (C8). -/

theorem alookup_cons [DecidableEq κ] (p : κ × β) (l : List (κ × β))
    (k' : κ) :
    alookup (p :: l) k' = if p.1 = k' then some p.2 else alookup l k' := by
  by_cases h : p.1 = k'
  · rw [if_pos h]
    simp only [alookup]
    rw [List.find?_cons_of_pos _ (by simp [h])]
    rfl
  · rw [if_neg h]
    simp only [alookup]
    rw [List.find?_cons_of_neg _ (by simp [h])]

theorem alookup_append_of_none [DecidableEq κ] (l : List (κ × β)) (k k' : κ)
    (v : β) (h : alookup l k' = none) :
    alookup (l ++ [(k, v)]) k' = if k = k' then some v else none := by
  induction l with
  | nil => simp [alookup_cons, alookup]
  | cons p l ih =>
    rw [alookup_cons] at h
    by_cases hp : p.1 = k'
    · simp [hp] at h
    · rw [if_neg hp] at h
      rw [List.cons_append, alookup_cons, if_neg hp]
      exact ih h

theorem alookup_append_of_some [DecidableEq κ] (l : List (κ × β)) (k k' : κ)
    (v w : β) (h : alookup l k' = some w) :
    alookup (l ++ [(k, v)]) k' = some w := by
  induction l with
  | nil => simp [alookup] at h
  | cons p l ih =>
    rw [alookup_cons] at h
    rw [List.cons_append, alookup_cons]
    by_cases hp : p.1 = k'
    · rwa [if_pos hp] at h ⊢
    · rw [if_neg hp] at h ⊢
      exact ih h

theorem alookup_amodify [DecidableEq κ] (l : List (κ × β)) (k : κ)
    (f : β → β) (k' : κ) :
    alookup (amodify l k f) k'
      = if k' = k then (alookup l k').map f else alookup l k' := by
  induction l with
  | nil => simp [alookup, amodify]
  | cons p l ih =>
    have hamod : amodify (p :: l) k f
        = (if p.1 = k then (p.1, f p.2) else p) :: amodify l k f := rfl
    rw [hamod]
    by_cases hpk : p.1 = k <;> by_cases hpk' : p.1 = k'
    · have hk'k : k' = k := by rw [← hpk', hpk]
      subst hk'k
      simp [alookup_cons, hpk, hpk', ih]
    · have hk'k : ¬ k' = k := fun hcon => hpk' (by rw [hpk, ← hcon])
      have hkk' : ¬ k = k' := fun hcon => hk'k hcon.symm
      simp [alookup_cons, hpk, hpk', hk'k, hkk', ih]
    · have hk'k : ¬ k' = k := fun hcon => hpk (by rw [hpk', hcon])
      have hkk' : ¬ k = k' := fun hcon => hk'k hcon.symm
      simp [alookup_cons, hpk, hpk', hk'k, hkk', ih]
    · simp [alookup_cons, hpk, hpk', ih]

/-- The effect of one `record_request` on the per-route dict: the event's
`(METHOD, pattern)` key is recorded into (created fresh if absent), every
other key is untouched. -/
theorem record_request_routes_lookup (a : TrafficAnalyzer) (now : Rat)
    (method path : String) (lat : Rat) (st sz : Int)
    (key' : String × String) :
    alookup (a.record_request now method path lat st sz).routes key'
      = if key' = (method.toUpper, path)
        then some ((match alookup a.routes key' with
            | some rm => rm
            | none => initRouteMetrics path method.toUpper).record
              a.window_size (a.window_size / 2) now lat st sz)
        else alookup a.routes key' := by
  simp only [TrafficAnalyzer.record_request]
  rcases hl : alookup a.routes (method.toUpper, path) with - | rm
  · rw [if_pos rfl, alookup_amodify]
    by_cases hkey : key' = (method.toUpper, path)
    · rw [if_pos hkey, if_pos hkey]
      subst hkey
      rw [alookup_append_of_none _ _ _ _ hl, if_pos rfl, hl]
      rfl
    · rw [if_neg hkey, if_neg hkey]
      rcases hl' : alookup a.routes key' with - | w
      · rw [alookup_append_of_none _ _ _ _ hl',
          if_neg (fun hcon => hkey hcon.symm)]
      · rw [alookup_append_of_some _ _ _ _ _ hl']
  · rw [if_neg (by simp [hl]), alookup_amodify]
    by_cases hkey : key' = (method.toUpper, path)
    · rw [if_pos hkey, if_pos hkey]
      subst hkey
      rw [hl]
      rfl
    · rw [if_neg hkey, if_neg hkey]

/-- The effect of one `record_request` on the global counters. -/
theorem record_request_totals (a : TrafficAnalyzer) (now : Rat)
    (method path : String) (lat : Rat) (st sz : Int) :
    (a.record_request now method path lat st sz).total_requests
        = a.total_requests + 1 ∧
    (a.record_request now method path lat st sz).total_errors
        = (if st ≥ 400 then a.total_errors + 1 else a.total_errors) := by
  constructor <;> simp [TrafficAnalyzer.record_request]

/-- The effect of one `RouteMetrics.record` on the per-route counters. -/
theorem record_totals (rm : RouteMetrics) (capL capE : Nat) (now lat : Rat)
    (st sz : Int) :
    (rm.record capL capE now lat st sz).total_requests
        = rm.total_requests + 1 ∧
    (rm.record capL capE now lat st sz).total_errors
        = (if st ≥ 400 then rm.total_errors + 1 else rm.total_errors) := by
  constructor <;> simp [RouteMetrics.record]

/-- C8: for every sequence of `record_request` calls on a fresh
`TrafficAnalyzer`, `total_requests` equals the number of calls and
`total_errors` equals the number of calls with status ≥ 400; and the same
holds per route: each `(METHOD, pattern)` key's `RouteMetrics` counts
exactly the calls recorded against that key (and a key with no recorded
calls has no `RouteMetrics`). -/
theorem c8_recorded_request_counters (ws : Nat) (si : Rat)
    (events : List ReqEvent) :
    (recordRequests (initAnalyzer ws si) events).total_requests
        = events.length ∧
    (recordRequests (initAnalyzer ws si) events).total_errors
        = (events.filter (fun e => decide (e.status ≥ 400))).length ∧
    ∀ key : String × String,
      (∀ rm : RouteMetrics,
        alookup (recordRequests (initAnalyzer ws si) events).routes key
            = some rm →
          rm.total_requests
              = (events.filter (fun e => decide (e.key = key))).length ∧
          rm.total_errors
              = (events.filter (fun e =>
                  decide (e.key = key) && decide (e.status ≥ 400))).length) ∧
      (alookup (recordRequests (initAnalyzer ws si) events).routes key
          = none →
        events.filter (fun e => decide (e.key = key)) = []) := by
  induction events using List.reverseRecOn with
  | nil =>
    refine ⟨rfl, rfl, ?_⟩
    intro key
    constructor
    · intro rm h
      simp [recordRequests, initAnalyzer, alookup] at h
    · intro _
      rfl
  | append_singleton es e ih =>
    obtain ⟨ih1, ih2, ih3⟩ := ih
    have hstep : recordRequests (initAnalyzer ws si) (es ++ [e])
        = (recordRequests (initAnalyzer ws si) es).record_request e.now
            e.method e.path e.latency e.status e.size := by
      unfold recordRequests
      rw [List.foldl_append]
      rfl
    refine ⟨?_, ?_, ?_⟩
    · rw [hstep, (record_request_totals _ _ _ _ _ _ _).1, ih1]
      simp
    · rw [hstep, (record_request_totals _ _ _ _ _ _ _).2, ih2,
        List.filter_append]
      by_cases hst : e.status ≥ 400
      · rw [if_pos hst]
        simp [hst]
      · rw [if_neg hst]
        simp [hst]
    · intro key
      rw [hstep]
      have hlook := record_request_routes_lookup
        (recordRequests (initAnalyzer ws si) es) e.now e.method e.path
        e.latency e.status e.size key
      rw [hlook]
      by_cases hkey : key = (e.method.toUpper, e.path)
      · rw [if_pos hkey]
        have hpe : (fun e' : ReqEvent => decide (e'.key = key)) e = true := by
          simp [ReqEvent.key, hkey]
        rcases hprev : alookup (recordRequests (initAnalyzer ws si) es).routes
            key with - | rmprev
        · have hempty := (ih3 key).2 hprev
          have hall := List.filter_eq_nil_iff.mp hempty
          have hempty2 : es.filter (fun e' =>
              decide (e'.key = key) && decide (e'.status ≥ 400)) = [] := by
            apply List.filter_eq_nil_iff.mpr
            intro x hx
            simp only [Bool.and_eq_true, not_and]
            intro hx1
            exact absurd hx1 (by simpa using hall x hx)
          constructor
          · intro rm h
            have hrm := Option.some.inj h
            subst hrm
            constructor
            · rw [(record_totals _ _ _ _ _ _ _).1, List.filter_append, hempty]
              simp [hpe, initRouteMetrics]
            · rw [(record_totals _ _ _ _ _ _ _).2, List.filter_append, hempty2]
              by_cases hst : e.status ≥ 400
              · rw [if_pos hst]
                simp [hpe, hst, initRouteMetrics]
              · rw [if_neg hst]
                simp [hpe, hst, initRouteMetrics]
          · intro h
            simp at h
        · have hcounts := (ih3 key).1 rmprev hprev
          constructor
          · intro rm h
            have hrm := Option.some.inj h
            subst hrm
            constructor
            · rw [(record_totals _ _ _ _ _ _ _).1, List.filter_append,
                hcounts.1]
              simp [hpe]
            · rw [(record_totals _ _ _ _ _ _ _).2, List.filter_append,
                hcounts.2]
              by_cases hst : e.status ≥ 400
              · rw [if_pos hst]
                simp [hpe, hst]
              · rw [if_neg hst]
                simp [hpe, hst]
          · intro h
            simp at h
      · rw [if_neg hkey]
        have hpe : (fun e' : ReqEvent => decide (e'.key = key)) e = false := by
          simp only [decide_eq_false_iff_not, ReqEvent.key]
          exact fun hcon => hkey (by rw [← hcon])
        have hfilter : (es ++ [e]).filter (fun e' => decide (e'.key = key))
            = es.filter (fun e' => decide (e'.key = key)) := by
          rw [List.filter_append]
          simp [hpe]
        have hfilter2 : (es ++ [e]).filter (fun e' =>
              decide (e'.key = key) && decide (e'.status ≥ 400))
            = es.filter (fun e' =>
              decide (e'.key = key) && decide (e'.status ≥ 400)) := by
          rw [List.filter_append]
          simp [hpe]
        rw [hfilter, hfilter2]
        exact ih3 key

/-- C4, witness: the get theorem applied at a one-entry cache holding key a
with value 42 expiring at time 10, looked up at time 5 (fresh: returns 42)
and via the expired clause at time 11 (would be a miss). -/
theorem c4_witness :
    (((⟨5, 30, [⟨"a", 42, 10⟩], 0, 0⟩ : ResponseCache Nat).get 5 "a").1
      = some 42) ∧
    (((⟨5, 30, [⟨"a", 42, 10⟩], 0, 0⟩ : ResponseCache Nat).get 11 "a").1
      = none) := by
  constructor
  · exact ((c4_get_never_returns_expired Nat
      ⟨5, 30, [⟨"a", 42, 10⟩], 0, 0⟩ 5 "a").2.1 42 10 (by decide)
      (by norm_num)).1
  · exact ((c4_get_never_returns_expired Nat
      ⟨5, 30, [⟨"a", 42, 10⟩], 0, 0⟩ 11 "a").2.2.1 42 10 (by decide)
      (by norm_num)).1

/-- C10: `SARE.reset` clears exactly the traffic analyzer's state (the
per-route and per-middleware metrics dicts, the global timestamp window,
the history, the request/error counters and the snapshot stamp — the
analyzer's configuration is kept) and the response cache's entries and
hit/miss counters (its configuration is kept); every other component's
state survives: the memoized/pre-encoded route sets, per-route TTL
overrides, the JSON encoder's templates and fingerprints, the codepath
statistics, the whole optimizer (hot-route cache, middleware order,
evolution log, cycle count) and the whole predictor, plus every facade
flag. -/
theorem c10_reset_clears_exactly_analyzer_and_cache (V : Type)
    (s : SARE V) :
    ((s.reset).analyzer.routes = [] ∧
     (s.reset).analyzer.middleware = [] ∧
     (s.reset).analyzer.global_timestamps = [] ∧
     (s.reset).analyzer.history = [] ∧
     (s.reset).analyzer.total_requests = 0 ∧
     (s.reset).analyzer.total_errors = 0 ∧
     (s.reset).analyzer.last_snapshot = 0 ∧
     (s.reset).analyzer.window_size = s.analyzer.window_size ∧
     (s.reset).analyzer.snapshot_interval = s.analyzer.snapshot_interval) ∧
    ((s.reset).codepath.response_cache.cache = [] ∧
     (s.reset).codepath.response_cache.hits = 0 ∧
     (s.reset).codepath.response_cache.misses = 0 ∧
     (s.reset).codepath.response_cache.max_size
        = s.codepath.response_cache.max_size ∧
     (s.reset).codepath.response_cache.default_ttl
        = s.codepath.response_cache.default_ttl) ∧
    ((s.reset).codepath.memoized_routes = s.codepath.memoized_routes ∧
     (s.reset).codepath.preencoded_routes = s.codepath.preencoded_routes ∧
     (s.reset).codepath.route_ttls = s.codepath.route_ttls ∧
     (s.reset).codepath.json_encoder = s.codepath.json_encoder ∧
     (s.reset).codepath.cache_bypasses = s.codepath.cache_bypasses ∧
     (s.reset).codepath.fast_encodes = s.codepath.fast_encodes ∧
     (s.reset).codepath.total_requests_seen
        = s.codepath.total_requests_seen) ∧
    ((s.reset).optimizer = s.optimizer ∧
     (s.reset).predictor = s.predictor ∧
     (s.reset).predictor_enabled = s.predictor_enabled ∧
     (s.reset).auto_memoize = s.auto_memoize ∧
     (s.reset).auto_memoize_rps_threshold = s.auto_memoize_rps_threshold ∧
     (s.reset).auto_memoize_error_threshold
        = s.auto_memoize_error_threshold ∧
     (s.reset).enabled = s.enabled) :=
  ⟨⟨rfl, rfl, rfl, rfl, rfl, rfl, rfl, rfl, rfl⟩,
   ⟨rfl, rfl, rfl, rfl, rfl⟩,
   ⟨rfl, rfl, rfl, rfl, rfl, rfl, rfl⟩,
   ⟨rfl, rfl, rfl, rfl, rfl, rfl, rfl⟩⟩

/-- C1: `run_optimization_cycle` installs no exception handler — neither
does `maybe_optimize` above it nor `SARE.before_request` — so an exception
raised inside a sub-step's analyzer query propagates to the caller instead
of being caught and logged at the cycle boundary.  Shown on a fresh
optimizer (hot-route caching enabled, as by default) whose analyzer
queries fail: both the cycle and a due `maybe_optimize` return the error. -/
theorem c1_cycle_propagates_subStep_exception :
    run_optimization_cycle String
        ⟨Except.error "analyzer failure", Except.error "analyzer failure"⟩
        (initOptimizer 10 20 0.15) 100 = Except.error "analyzer failure" ∧
    maybe_optimize String
        ⟨Except.error "analyzer failure", Except.error "analyzer failure"⟩
        (initOptimizer 10 20 0.15) 100 = Except.error "analyzer failure" := by
  constructor
  · rfl
  · simp only [maybe_optimize]
    rw [if_neg (by norm_num [initOptimizer])]
    rfl

/- Helper lemmas for the memoization round-trip (claim C6). -/

theorem string_append_left_cancel (a b c : String) (h : a ++ b = a ++ c) :
    b = c := by
  have hd := congrArg String.data h
  simp only [String.data_append] at hd
  exact String.ext (List.append_cancel_left hd)

theorem cacheLookup_eq_none_iff (l : List (CacheEntry V)) (k : String) :
    cacheLookup l k = none ↔ k ∉ cacheKeys l := by
  constructor
  · intro h hm
    rcases List.mem_map.mp hm with ⟨e, he, hk⟩
    have hfind := Option.map_eq_none.mp h
    have := List.find?_eq_none.mp hfind e he
    simp [hk] at this
  · intro h
    apply Option.map_eq_none.mpr
    apply List.find?_eq_none.mpr
    intro e he
    simp only [beq_iff_eq, decide_eq_true_eq]
    intro hk
    exact h (hk ▸ List.mem_map_of_mem (fun x => x.key) he)

theorem cacheLookup_cons (p : CacheEntry V) (l : List (CacheEntry V))
    (k : String) :
    cacheLookup (p :: l) k
      = if p.key = k then some (p.data, p.expires_at) else cacheLookup l k := by
  by_cases h : p.key = k
  · rw [if_pos h]
    simp only [cacheLookup]
    rw [List.find?_cons_of_pos _ (by simp [h])]
    rfl
  · rw [if_neg h]
    simp only [cacheLookup]
    rw [List.find?_cons_of_neg _ (by simp [h])]

theorem cacheLookup_append_right (l : List (CacheEntry V))
    (e : CacheEntry V) (h : e.key ∉ cacheKeys l) :
    cacheLookup (l ++ [e]) e.key = some (e.data, e.expires_at) := by
  induction l with
  | nil =>
    rw [List.nil_append, cacheLookup_cons, if_pos rfl]
  | cons p l ih =>
    have hne : ¬ p.key = e.key := fun hq =>
      h (List.mem_cons.mpr (Or.inl hq.symm))
    rw [List.cons_append, cacheLookup_cons, if_neg hne]
    exact ih (fun hm => h (List.mem_cons.mpr (Or.inr hm)))

theorem mem_cacheKeys_of_mem_drop (l : List (CacheEntry V)) (n : Nat)
    (k : String) (h : k ∈ cacheKeys (l.drop n)) : k ∈ cacheKeys l := by
  unfold cacheKeys at h ⊢
  rw [List.map_drop] at h
  exact List.mem_of_mem_drop h

theorem put_cacheLookup_self (rc : ResponseCache V) (now : Rat) (k : String)
    (d : V) (ttl : Option Rat) (hmax : 1 ≤ rc.max_size) :
    cacheLookup (rc.put now k d ttl).cache k
      = some (d, now + ttl.getD rc.default_ttl) := by
  simp only [ResponseCache.put]
  have hk : k ∉ cacheKeys (removeKey rc.cache k) := by
    rw [cacheKeys_removeKey]
    exact not_mem_filter_ne _ _
  have hdroplen : (removeKey rc.cache k
        ++ [(⟨k, d, now + ttl.getD rc.default_ttl⟩ : CacheEntry V)]).length
        - rc.max_size ≤ (removeKey rc.cache k).length := by
    simp
    omega
  rw [List.drop_append_of_le_length hdroplen]
  apply cacheLookup_append_right
  intro hm
  exact hk (mem_cacheKeys_of_mem_drop _ _ _ hm)

theorem put_cacheLookup_absent (rc : ResponseCache V) (now : Rat)
    (k k' : String) (d : V) (ttl : Option Rat) (hne : k' ≠ k)
    (habsent : cacheLookup rc.cache k' = none) :
    cacheLookup (rc.put now k d ttl).cache k' = none := by
  rw [cacheLookup_eq_none_iff] at habsent ⊢
  simp only [ResponseCache.put]
  intro hm
  have hm2 : k' ∈ cacheKeys (removeKey rc.cache k
      ++ [(⟨k, d, now + ttl.getD rc.default_ttl⟩ : CacheEntry V)]) :=
    mem_cacheKeys_of_mem_drop _ _ _ hm
  rw [cacheKeys_append] at hm2
  rcases List.mem_append.mp hm2 with h1 | h2
  · rw [cacheKeys_removeKey] at h1
    exact habsent (List.mem_of_mem_filter h1)
  · exact hne (List.mem_singleton.mp h2)

theorem setAdd_self_mem (s : List String) (x : String) : x ∈ setAdd s x := by
  unfold setAdd
  split
  · assumption
  · simp

/-- C6: after `enable_memoization(route)`, a `store_response(route, GET,
path, query, data)` followed by a `try_cache_hit(route, GET, path, query)`
whose time is within the effective TTL returns exactly the stored data
(for a cache with at least one slot); a `try_cache_hit` with any different
query string (whose combined key was not already cached) misses; and
`try_cache_hit` always misses when the method is not GET or HEAD or when
the route is not memoized. -/
theorem c6_memoization_roundtrip (V : Type) (c : CodePathOptimizer V)
    (route path query query' : String) (data : V) (t_store t_hit : Rat)
    (ttl0 : Option Rat)
    (hmax : 1 ≤ c.response_cache.max_size)
    (hfresh : t_hit ≤ t_store
      + (alookup (c.enable_memoization route ttl0).route_ttls route).getD
          c.response_cache.default_ttl)
    (hq : query' ≠ query)
    (habsent : cacheLookup c.response_cache.cache
      (route ++ ":" ++ buildCacheKey "GET" path query') = none) :
    ((((c.enable_memoization route ttl0).store_response t_store route "GET"
        path query data).try_cache_hit t_hit route "GET" path query).1
      = some data) ∧
    ((((c.enable_memoization route ttl0).store_response t_store route "GET"
        path query data).try_cache_hit t_hit route "GET" path query').1
      = none) ∧
    (∀ (c' : CodePathOptimizer V) (now : Rat) (rid m p q : String),
        m ∉ (["GET", "HEAD"] : List String) →
        (c'.try_cache_hit now rid m p q).1 = none) ∧
    (∀ (c' : CodePathOptimizer V) (now : Rat) (rid m p q : String),
        rid ∉ c'.memoized_routes →
        (c'.try_cache_hit now rid m p q).1 = none) := by
  have hmem1 : route ∈ (c.enable_memoization route ttl0).memoized_routes :=
    setAdd_self_mem c.memoized_routes route
  have hstore : ((c.enable_memoization route ttl0).store_response t_store
      route "GET" path query data)
      = { c.enable_memoization route ttl0 with
          response_cache := (c.enable_memoization route ttl0).response_cache.put
            t_store (route ++ ":" ++ buildCacheKey "GET" path query) data
            (some ((alookup (c.enable_memoization route ttl0).route_ttls
              route).getD
              (c.enable_memoization route ttl0).response_cache.default_ttl)) }
      := by
    simp only [CodePathOptimizer.store_response]
    rw [if_neg (not_not_intro hmem1), if_neg (not_not_intro (by simp))]
  have hmem2 : route ∈ ((c.enable_memoization route ttl0).store_response
      t_store route "GET" path query data).memoized_routes := by
    rw [hstore]
    exact hmem1
  refine ⟨?_, ?_, ?_, ?_⟩
  · simp only [CodePathOptimizer.try_cache_hit]
    rw [if_neg (not_not_intro hmem2), if_neg (not_not_intro (by simp))]
    simp only [hstore]
    have hlook := put_cacheLookup_self
      (c.enable_memoization route ttl0).response_cache t_store
      (route ++ ":" ++ buildCacheKey "GET" path query) data
      (some ((alookup (c.enable_memoization route ttl0).route_ttls
        route).getD (c.enable_memoization route ttl0).response_cache.default_ttl))
      hmax
    simp only [ResponseCache.get, hlook, Option.getD_some]
    rw [if_neg (by
      simp only [not_lt]
      exact hfresh)]
  · simp only [CodePathOptimizer.try_cache_hit]
    rw [if_neg (not_not_intro hmem2), if_neg (not_not_intro (by simp))]
    simp only [hstore]
    have hkeyne : route ++ ":" ++ buildCacheKey "GET" path query'
        ≠ route ++ ":" ++ buildCacheKey "GET" path query := by
      intro hcon
      apply hq
      have h1 : route ++ ":" ++ buildCacheKey "GET" path query'
          = (route ++ ":" ++ ("GET" ++ "|" ++ path ++ "|")) ++ query' := by
        simp only [buildCacheKey, String.append_assoc]
      have h2 : route ++ ":" ++ buildCacheKey "GET" path query
          = (route ++ ":" ++ ("GET" ++ "|" ++ path ++ "|")) ++ query := by
        simp only [buildCacheKey, String.append_assoc]
      rw [h1, h2] at hcon
      exact string_append_left_cancel _ _ _ hcon
    have hlook := put_cacheLookup_absent
      (c.enable_memoization route ttl0).response_cache t_store
      (route ++ ":" ++ buildCacheKey "GET" path query)
      (route ++ ":" ++ buildCacheKey "GET" path query') data
      (some ((alookup (c.enable_memoization route ttl0).route_ttls
        route).getD (c.enable_memoization route ttl0).response_cache.default_ttl))
      hkeyne habsent
    simp only [ResponseCache.get, hlook]
  · intro c' now rid m p q hm
    simp only [CodePathOptimizer.try_cache_hit]
    by_cases hr : rid ∈ c'.memoized_routes
    · rw [if_neg (not_not_intro hr), if_pos hm]
    · rw [if_pos hr]
  · intro c' now rid m p q hr
    simp only [CodePathOptimizer.try_cache_hit]
    rw [if_pos hr]

/-- C6, witness: on a fresh code-path optimizer, enable memoization for
route `GET /api/z`, store the response 7 for query `a=1` at time 0, and
look it up at time 10 (within the default TTL 30): the same query hits
with 7, the different query `a=2` misses. -/
theorem c6_witness :
    ((((initCodePath Nat 500 30 100).enable_memoization "GET /api/z"
        none).store_response 0 "GET /api/z" "GET" "/api/z" "a=1"
        7).try_cache_hit 10 "GET /api/z" "GET" "/api/z" "a=1").1
      = some 7 ∧
    ((((initCodePath Nat 500 30 100).enable_memoization "GET /api/z"
        none).store_response 0 "GET /api/z" "GET" "/api/z" "a=1"
        7).try_cache_hit 10 "GET /api/z" "GET" "/api/z" "a=2").1
      = none := by
  have h := c6_memoization_roundtrip Nat (initCodePath Nat 500 30 100)
    "GET /api/z" "/api/z" "a=1" "a=2" 7 0 10 none
    (by decide)
    (by simp [CodePathOptimizer.enable_memoization, initCodePath, alookup]
        norm_num [emptyCache])
    (by decide)
    rfl
  exact ⟨h.1, h.2.1⟩

/- Helper lemmas for the middleware-reorder hysteresis (claim C7). -/

theorem lookupIdx_self (old : List String) (h : old.Nodup) (i : Nat)
    (n : String) (hmem : (i, n) ∈ old.enum) : lookupIdx old n = some i := by
  have hmemrev : (i, n) ∈ old.enum.reverse := List.mem_reverse.mpr hmem
  rcases hfind : (old.enum.reverse).find? (fun p => decide (p.2 = n))
      with - | q
  · have hsome : ((old.enum.reverse).find?
        (fun p => decide (p.2 = n))).isSome := by
      rw [List.find?_isSome]
      exact ⟨(i, n), hmemrev, by simp⟩
    rw [hfind] at hsome
    simp at hsome
  · have hq2 : q.2 = n := by simpa using List.find?_some hfind
    have hqmem : q ∈ old.enum :=
      List.mem_reverse.mp (List.mem_of_find?_eq_some hfind)
    have h1 : old[i]? = some n := by
      simpa using List.mem_enum_iff_getElem?.mp hmem
    have h2 : old[q.1]? = some n := by
      have := List.mem_enum_iff_getElem?.mp hqmem
      rw [← hq2]
      simpa using this
    have hilt : i < old.length := by
      by_contra hge
      rw [List.getElem?_eq_none (by omega)] at h1
      exact Option.noConfusion h1
    have hij : i = q.1 := List.getElem?_inj hilt h (h1.trans h2.symm)
    rw [lookupIdx, hfind]
    simp [← hij]

theorem foldl_max_eq_zero (l : List Nat) (h : ∀ x ∈ l, x = 0) :
    l.foldl max 0 = 0 := by
  induction l with
  | nil => rfl
  | cons a t ih =>
    have ha := h a (by simp)
    rw [List.foldl_cons, ha]
    have : max 0 0 = 0 := rfl
    rw [this]
    exact ih (fun x hx => h x (by simp [hx]))

theorem maxShift_self (old : List String) (h : old.Nodup) :
    maxShift old old = 0 := by
  unfold maxShift
  apply foldl_max_eq_zero
  intro x hx
  rcases List.mem_map.mp hx with ⟨p, hp, hval⟩
  have hlook : lookupIdx old p.2 = some p.1 :=
    lookupIdx_self old h p.1 p.2 hp
  rw [hlook] at hval
  simp at hval
  omega

theorem newMwOrder_nodup (mw_metrics : List (String × MiddlewareMetrics))
    (h : (mw_metrics.map Prod.fst).Nodup) : (newMwOrder mw_metrics).Nodup := by
  unfold newMwOrder
  have hperm : ((mw_metrics.map (fun p => (p.1, mwScore p.2))).mergeSort
        (fun a b => decide (b.2 ≤ a.2))).Perm
      (mw_metrics.map (fun p => (p.1, mwScore p.2))) :=
    List.mergeSort_perm _ _
  have hperm2 := hperm.map (Prod.fst : String × Rat → String)
  have heq : (mw_metrics.map (fun p => (p.1, mwScore p.2))).map Prod.fst
      = mw_metrics.map Prod.fst := by
    simp [List.map_map]
  rw [heq] at hperm2
  exact (List.Perm.nodup_iff hperm2).mpr h

/-- C7: when an optimal middleware order already exists (and the metrics
dict has at least two middlewares with unique names, and the hysteresis
threshold is positive as configured), a cycle whose newly computed
scoring has a normalized shift below `reorder_threshold` leaves the order
unchanged and emits no action, while a normalized shift at or above the
threshold adopts the new order and logs exactly one `middleware_reorder`
action. -/
theorem c7_reorder_hysteresis (opt : AdaptiveOptimizer)
    (mw_metrics : List (String × MiddlewareMetrics)) (old : List String)
    (hold : opt.optimal_mw_order = some old)
    (hlen : 2 ≤ mw_metrics.length)
    (hnodup : (mw_metrics.map Prod.fst).Nodup)
    (hthr : 0 < opt.reorder_threshold) :
    (normalizedShift old (newMwOrder mw_metrics) < opt.reorder_threshold →
      (optimizeMiddlewareOrder opt mw_metrics).1.optimal_mw_order = some old
      ∧ (optimizeMiddlewareOrder opt mw_metrics).2 = []) ∧
    (opt.reorder_threshold ≤ normalizedShift old (newMwOrder mw_metrics) →
      (optimizeMiddlewareOrder opt mw_metrics).1.optimal_mw_order
          = some (newMwOrder mw_metrics)
      ∧ (optimizeMiddlewareOrder opt mw_metrics).2
          = [OptAction.mk "middleware_reorder"]) := by
  have hnotlt : ¬ mw_metrics.length < 2 := by omega
  constructor
  · intro hlow
    by_cases hne : newMwOrder mw_metrics = old
    · simp only [optimizeMiddlewareOrder, if_neg hnotlt, hold]
      rw [if_neg (not_not_intro hne)]
      exact ⟨hold, rfl⟩
    · simp only [optimizeMiddlewareOrder, if_neg hnotlt, hold]
      rw [if_pos hne, if_neg (not_le.mpr hlow)]
      exact ⟨rfl, rfl⟩
  · intro hhigh
    have hne : newMwOrder mw_metrics ≠ old := by
      intro hcon
      rw [hcon] at hhigh
      have hshift0 : normalizedShift old old = 0 := by
        unfold normalizedShift
        rw [maxShift_self old (hcon ▸ newMwOrder_nodup mw_metrics hnodup)]
        simp
      rw [hshift0] at hhigh
      exact absurd (lt_of_lt_of_le hthr hhigh) (lt_irrefl 0)
    simp only [optimizeMiddlewareOrder, if_neg hnotlt, hold]
    rw [if_pos hne, if_pos (le_of_le_of_eq hhigh rfl)]
    exact ⟨rfl, rfl⟩

/-- A concrete optimizer state with an existing middleware order, for the
C7 witness. -/
def optW7 : AdaptiveOptimizer :=
  { initOptimizer 10 20 0.15 with optimal_mw_order := some ["a", "b"] }

/-- Concrete middleware metrics for the C7 witness: middleware b
short-circuits every call (score 4), middleware a never does (score 1), so
the recomputed order is b before a — a maximal shift of 1 out of 2. -/
def mwW7 : List (String × MiddlewareMetrics) :=
  [("a", { initMiddlewareMetrics "a" with total_calls := 1 }),
   ("b", { initMiddlewareMetrics "b" with
            total_calls := 1, short_circuit_count := 1 })]

/-- C7, witness: with existing order `[a, b]` and a new scoring that swaps
the two middlewares (normalized shift 1/2 ≥ 0.15), the new order `[b, a]`
is adopted and exactly one `middleware_reorder` action is emitted. -/
theorem c7_witness :
    (optimizeMiddlewareOrder optW7 mwW7).1.optimal_mw_order
      = some ["b", "a"] ∧
    (optimizeMiddlewareOrder optW7 mwW7).2
      = [OptAction.mk "middleware_reorder"] := by
  have hnew : newMwOrder mwW7 = ["b", "a"] := by
    simp [newMwOrder, List.mergeSort, mwScore, mwW7,
      MiddlewareMetrics.short_circuit_rate, initMiddlewareMetrics]
  have h := (c7_reorder_hysteresis optW7 mwW7 ["a", "b"] rfl
    (by simp [mwW7]) (by simp [mwW7]) (by norm_num [optW7, initOptimizer])).2
    (by
      rw [hnew]
      unfold normalizedShift
      have hms : maxShift ["a", "b"] ["b", "a"] = 1 := by decide
      rw [hms]
      norm_num [optW7, initOptimizer])
  rw [hnew] at h
  exact h

/- Helper lemmas for the predictor blend (claim C9). -/

theorem alookup_amodify_isSome [DecidableEq κ] (l : List (κ × β)) (k : κ)
    (f : β → β) (r : κ) :
    (alookup (amodify l k f) r).isSome = (alookup l r).isSome := by
  rw [alookup_amodify]
  by_cases hr : r = k
  · rw [if_pos hr]
    rcases alookup l r with - | w <;> rfl
  · rw [if_neg hr]

theorem alookup_append_isSome [DecidableEq κ] (l : List (κ × β)) (k : κ)
    (v : β) (r : κ) :
    (alookup (l ++ [(k, v)]) r).isSome
      = ((alookup l r).isSome || decide (r = k)) := by
  rcases h : alookup l r with - | w
  · rw [alookup_append_of_none _ _ _ _ h]
    by_cases hr : k = r
    · rw [if_pos hr]
      simp [hr.symm]
    · rw [if_neg hr]
      simp only [Option.isSome_none, Bool.false_or, Option.isSome_some]
      symm
      simp only [decide_eq_false_iff_not]
      exact fun hc => hr hc.symm
  · rw [alookup_append_of_some _ _ _ _ _ h]
    simp

/-- The four lookup domains that the prediction functions consult, kept in
lock-step by `update_route` (they are created together). -/
def alignedDomains (p : LatencyPredictor) : Prop :=
  ∀ r : String,
    (alookup p.latency_ewma r).isSome = (alookup p.rps_ewma r).isSome ∧
    (alookup p.rps_trend r).isSome = (alookup p.rps_ewma r).isSome ∧
    (alookup p.latency_trend r).isSome = (alookup p.rps_ewma r).isSome

theorem update_route_aligned (p : LatencyPredictor) (now : Rat)
    (rm : RouteMetrics) (h : alignedDomains p) :
    alignedDomains (p.update_route now rm) := by
  intro r
  simp only [LatencyPredictor.update_route]
  rcases hm : alookup p.rps_ewma (rm.method ++ " " ++ rm.path) with - | e
  · simp only [hm]
    rw [alookup_amodify_isSome, alookup_amodify_isSome,
      alookup_amodify_isSome, alookup_amodify_isSome]
    rw [alookup_append_isSome, alookup_append_isSome,
      alookup_append_isSome, alookup_append_isSome]
    rw [(h r).1, (h r).2.1, (h r).2.2]
    exact ⟨rfl, rfl, rfl⟩
  · simp only [hm]
    rw [alookup_amodify_isSome, alookup_amodify_isSome,
      alookup_amodify_isSome, alookup_amodify_isSome]
    exact h r

theorem update_route_rps_ewma_isSome (p : LatencyPredictor) (now : Rat)
    (rm : RouteMetrics) (r : String) :
    (alookup (p.update_route now rm).rps_ewma r).isSome
      = ((alookup p.rps_ewma r).isSome
          || decide (r = rm.method ++ " " ++ rm.path)) := by
  simp only [LatencyPredictor.update_route]
  rcases hm : alookup p.rps_ewma (rm.method ++ " " ++ rm.path) with - | e
  · simp only [hm]
    rw [alookup_amodify_isSome, alookup_append_isSome]
  · simp only [hm]
    rw [alookup_amodify_isSome]
    by_cases hr : r = rm.method ++ " " ++ rm.path
    · subst hr
      simp [hm]
    · simp [hr]

theorem update_aligned (now : Rat) :
    ∀ (rms : List RouteMetrics) (p : LatencyPredictor),
      alignedDomains p → alignedDomains (p.update rms now) := by
  intro rms
  induction rms with
  | nil => intro p h; exact h
  | cons rm rms ih =>
    intro p h
    exact ih (p.update_route now rm) (update_route_aligned p now rm h)

theorem update_rps_ewma_isSome (now : Rat) :
    ∀ (rms : List RouteMetrics) (p : LatencyPredictor) (r : String),
      (alookup (p.update rms now).rps_ewma r).isSome
        = ((alookup p.rps_ewma r).isSome
            || rms.any (fun rm => decide (r = rm.method ++ " " ++ rm.path))) := by
  intro rms
  induction rms with
  | nil =>
    intro p r
    simp [LatencyPredictor.update]
  | cons rm rms ih =>
    intro p r
    have hstep : p.update (rm :: rms) now
        = (p.update_route now rm).update rms now := rfl
    rw [hstep, ih (p.update_route now rm) r, update_route_rps_ewma_isSome]
    simp [Bool.or_assoc]

theorem updateAll_aligned (batches : List (List RouteMetrics × Rat)) :
    ∀ p : LatencyPredictor, alignedDomains p →
      alignedDomains (updateAll p batches) := by
  induction batches with
  | nil => intro p h; exact h
  | cons b batches ih =>
    intro p h
    exact ih (p.update b.1 b.2) (update_aligned b.2 b.1 p h)

theorem updateAll_rps_ewma_isSome (batches : List (List RouteMetrics × Rat)) :
    ∀ (p : LatencyPredictor) (r : String),
      (alookup (updateAll p batches).rps_ewma r).isSome
        = ((alookup p.rps_ewma r).isSome || (batches.any (fun b => b.1.any
            (fun rm => decide (r = rm.method ++ " " ++ rm.path))))) := by
  induction batches with
  | nil =>
    intro p r
    simp [updateAll]
  | cons b batches ih =>
    intro p r
    have hstep : updateAll p (b :: batches)
        = updateAll (p.update b.1 b.2) batches := rfl
    rw [hstep, ih (p.update b.1 b.2) r, update_rps_ewma_isSome]
    simp [Bool.or_assoc]

theorem initPredictor_aligned : alignedDomains initPredictor := by
  intro r
  exact ⟨rfl, rfl, rfl⟩

/-- C9: after any sequence of `update` calls, a route the predictor has
seen at least once gets `predict_rps` / `predict_latency` equal to
`max 0 (trend_extrapolation(steps_ahead) * w + ewma_value * (1 - w))` with
`w = min(steps_ahead / 12, 0.7)` over its stored trend/EWMA state — hence
never negative — while a never-seen route gets `None` from both. -/
theorem c9_predictions_blend_and_clamp
    (batches : List (List RouteMetrics × Rat)) (r : String) (steps : Nat) :
    (routeSeen batches r = true →
      ∃ (trend ewma : _) (trendL ewmaL : _),
        alookup (updateAll initPredictor batches).rps_trend r = some trend ∧
        alookup (updateAll initPredictor batches).rps_ewma r = some ewma ∧
        alookup (updateAll initPredictor batches).latency_trend r
          = some trendL ∧
        alookup (updateAll initPredictor batches).latency_ewma r
          = some ewmaL ∧
        (updateAll initPredictor batches).predict_rps r steps
          = some (max 0 (trend.predict_next steps
              * min ((steps : Rat) / 12) 0.7
              + ewma.value * (1 - min ((steps : Rat) / 12) 0.7))) ∧
        (updateAll initPredictor batches).predict_latency r steps
          = some (max 0 (trendL.predict_next steps
              * min ((steps : Rat) / 12) 0.7
              + ewmaL.value * (1 - min ((steps : Rat) / 12) 0.7)))) ∧
    (routeSeen batches r = false →
      (updateAll initPredictor batches).predict_rps r steps = none ∧
      (updateAll initPredictor batches).predict_latency r steps = none) ∧
    (∀ v : Rat, (updateAll initPredictor batches).predict_rps r steps
        = some v → 0 ≤ v) ∧
    (∀ v : Rat, (updateAll initPredictor batches).predict_latency r steps
        = some v → 0 ≤ v) := by
  have haligned := updateAll_aligned batches initPredictor initPredictor_aligned
  have hdom : (alookup (updateAll initPredictor batches).rps_ewma r).isSome
      = routeSeen batches r := by
    have hdom0 := updateAll_rps_ewma_isSome batches initPredictor r
    have hinit : (alookup initPredictor.rps_ewma r).isSome = false := rfl
    rw [hinit, Bool.false_or] at hdom0
    exact hdom0
  refine ⟨?_, ?_, ?_, ?_⟩
  · intro hseen
    have hsome : (alookup (updateAll initPredictor batches).rps_ewma r).isSome
        = true := by
      rw [hdom]
      exact hseen
    rcases he : alookup (updateAll initPredictor batches).rps_ewma r
        with - | ewma
    · rw [he] at hsome
      exact absurd hsome (by simp)
    · have hal := haligned r
      rw [he] at hal
      rcases hel : alookup (updateAll initPredictor batches).latency_ewma r
          with - | ewmaL
      · rw [hel] at hal
        simp at hal
      · rcases ht : alookup (updateAll initPredictor batches).rps_trend r
            with - | trend
        · rw [ht] at hal
          simp at hal
        · rcases htl : alookup (updateAll initPredictor
              batches).latency_trend r with - | trendL
          · rw [htl] at hal
            simp at hal
          · refine ⟨trend, ewma, trendL, ewmaL, rfl, rfl, rfl, rfl, ?_, ?_⟩
            · simp only [LatencyPredictor.predict_rps, ht, he]
            · simp only [LatencyPredictor.predict_latency, htl, hel]
  · intro hunseen
    have hnone : (alookup (updateAll initPredictor batches).rps_ewma r).isSome
        = false := by
      rw [hdom]
      exact hunseen
    rcases he : alookup (updateAll initPredictor batches).rps_ewma r
        with - | ewma
    · have hal := haligned r
      rw [he] at hal
      constructor
      · simp only [LatencyPredictor.predict_rps]
        rcases ht : alookup (updateAll initPredictor batches).rps_trend r
            with - | trend
        · rfl
        · rw [ht] at hal
          simp at hal
      · simp only [LatencyPredictor.predict_latency]
        rcases htl : alookup (updateAll initPredictor
            batches).latency_trend r with - | trendL
        · rfl
        · rw [htl] at hal
          simp at hal
    · rw [he] at hnone
      exact absurd hnone (by simp)
  · intro v hv
    simp only [LatencyPredictor.predict_rps] at hv
    rcases ht : alookup (updateAll initPredictor batches).rps_trend r
        with - | trend <;>
      rcases he : alookup (updateAll initPredictor batches).rps_ewma r
        with - | ewma <;>
      rw [ht, he] at hv <;> simp at hv
    rw [← hv]
    exact le_max_left 0 _
  · intro v hv
    simp only [LatencyPredictor.predict_latency] at hv
    rcases ht : alookup (updateAll initPredictor batches).latency_trend r
        with - | trend <;>
      rcases he : alookup (updateAll initPredictor batches).latency_ewma r
        with - | ewma <;>
      rw [ht, he] at hv <;> simp at hv
    rw [← hv]
    exact le_max_left 0 _

/-- C9, witness: after one update batch containing route `GET /x`, the
predictor returns a (some) prediction for `GET /x` — and it is nonnegative
— while the never-seen route gets `None`. -/
theorem c9_witness :
    (((updateAll initPredictor [([initRouteMetrics "/x" "GET"], 0)]
        ).predict_rps "GET /x" 6).isSome = true) ∧
    ((updateAll initPredictor [([initRouteMetrics "/y" "GET"], 0)]
        ).predict_rps "GET /x" 6 = none) := by
  constructor
  · obtain ⟨t, e, tl, el, h1, h2, h3, h4, h5, h6⟩ :=
      (c9_predictions_blend_and_clamp [([initRouteMetrics "/x" "GET"], 0)]
        "GET /x" 6).1 (by decide)
    rw [h5]
    rfl
  · exact ((c9_predictions_blend_and_clamp
      [([initRouteMetrics "/y" "GET"], 0)] "GET /x" 6).2.1 (by decide)).1

/-- C5, counterexample: `fast_encode` interpolates keys without any
escaping, so for the flat dict `{'a"b': 1}` — whose structure was learned
by `learn_structure` for the route — the produced text is
`{"a"b":1}`, which a standard (strict) JSON parser rejects instead of
yielding the original dict. -/
theorem c5_counterexample :
    ((initJSONPreEncoder 100).learn_structure "r"
        [("a\"b", JVal.jint 1)]).2.fast_encode "r" [("a\"b", JVal.jint 1)]
      = some "\x7b\"a\"b\":1\x7d" ∧
    parseJson "\x7b\"a\"b\":1\x7d" = none := by
  constructor
  · simp [JSONPreEncoder.learn_structure, JSONPreEncoder.buildTemplate,
      JSONPreEncoder.fast_encode, alookup, aset, jsonFingerprint,
      List.mergeSort_singleton, encodePart, encodeVal, intRepr, natRepr,
      natDigits, natDigitsAux, initJSONPreEncoder, JVal.typeName,
      String.intercalate, String.intercalate.go, List.intercalate]
    decide
  · decide

/- Helper lemmas for the fast-encode round trip (claim C5): escaping,
string parsing, and decimal digits. -/

theorem parseStringBody_cons (c : Char) (cs : List Char) :
    parseStringBody (c :: cs)
      = if c = '"' then some ([], cs)
        else if c = '\\' then
          (match cs with
           | [] => none
           | e :: cs1 =>
             if e = '"' ∨ e = '\\' then
               (parseStringBody cs1).map (fun p => (e :: p.1, p.2))
             else none)
        else if c.toNat < 32 then none
        else (parseStringBody cs).map (fun p => (c :: p.1, p.2)) := by
  rw [parseStringBody.eq_def]

theorem replaceAllChar_append (t : Char) (r l1 l2 : List Char) :
    replaceAllChar t r (l1 ++ l2)
      = replaceAllChar t r l1 ++ replaceAllChar t r l2 := by
  induction l1 with
  | nil => rfl
  | cons c cs ih =>
    show (if c = t then r else [c]) ++ replaceAllChar t r (cs ++ l2)
        = ((if c = t then r else [c]) ++ replaceAllChar t r cs)
          ++ replaceAllChar t r l2
    rw [ih, List.append_assoc]

theorem escapeJsonChars_eq_escOne (s : List Char) :
    escapeJsonChars s = escOne s := by
  induction s with
  | nil => rfl
  | cons c cs ih =>
    have hstep : replaceAllChar '\\' ['\\', '\\'] (c :: cs)
        = (if c = '\\' then ['\\', '\\'] else [c])
          ++ replaceAllChar '\\' ['\\', '\\'] cs := rfl
    show replaceAllChar '"' ['\\', '"']
        (replaceAllChar '\\' ['\\', '\\'] (c :: cs)) = _
    rw [hstep, replaceAllChar_append]
    by_cases h1 : c = '\\'
    · subst h1
      show ('\\' :: '\\' :: []) ++ escapeJsonChars cs = escOne ('\\' :: cs)
      rw [ih]
      simp [escOne]
    · by_cases h2 : c = '"'
      · subst h2
        show ('\\' :: '"' :: []) ++ escapeJsonChars cs = escOne ('"' :: cs)
        rw [ih]
        simp [escOne]
      · have hone : replaceAllChar '"' ['\\', '"'] [c] = [c] := by
          simp [replaceAllChar, h2]
        rw [if_neg h1, hone]
        show [c] ++ escapeJsonChars cs = escOne (c :: cs)
        rw [ih]
        simp [escOne, h1, h2]

theorem parseStringBody_escOne (s : List Char) :
    ∀ rest : List Char, (∀ c ∈ s, 32 ≤ c.toNat) →
    parseStringBody (escOne s ++ '"' :: rest) = some (s, rest) := by
  induction s with
  | nil =>
    intro rest _
    show parseStringBody ('"' :: rest) = some ([], rest)
    rw [parseStringBody_cons, if_pos rfl]
  | cons c cs ih =>
    intro rest hs
    have hc := hs c (by simp)
    have hcs : ∀ x ∈ cs, 32 ≤ x.toNat := fun x hx => hs x (by simp [hx])
    by_cases h : c = '\\' ∨ c = '"'
    · have hesc : escOne (c :: cs) = '\\' :: c :: escOne cs := by
        simp [escOne, h]
      rw [hesc]
      have hswap : c = '"' ∨ c = '\\' := h.symm
      rw [List.cons_append, List.cons_append, parseStringBody_cons]
      rw [if_neg (by decide : ¬ ('\\' : Char) = '"'), if_pos rfl]
      show (if c = '"' ∨ c = '\\' then
          (parseStringBody (escOne cs ++ '"' :: rest)).map
            (fun p => (c :: p.1, p.2))
        else none) = some (c :: cs, rest)
      rw [if_pos hswap, ih rest hcs]
      rfl
    · push_neg at h
      have hesc : escOne (c :: cs) = c :: escOne cs := by
        simp [escOne, h.1, h.2]
      rw [hesc, List.cons_append, parseStringBody_cons]
      rw [if_neg h.2, if_neg h.1, if_neg (by omega : ¬ c.toNat < 32)]
      rw [ih rest hcs]
      rfl

theorem parseStringBody_escape (s rest : List Char)
    (hs : ∀ c ∈ s, 32 ≤ c.toNat) :
    parseStringBody (escapeJsonChars s ++ '"' :: rest) = some (s, rest) := by
  rw [escapeJsonChars_eq_escOne]
  exact parseStringBody_escOne s rest hs

theorem parseStringBody_clean (k : List Char) :
    ∀ rest : List Char, (∀ c ∈ k, c ≠ '"' ∧ c ≠ '\\' ∧ 32 ≤ c.toNat) →
    parseStringBody (k ++ '"' :: rest) = some (k, rest) := by
  induction k with
  | nil =>
    intro rest _
    show parseStringBody ('"' :: rest) = some ([], rest)
    rw [parseStringBody_cons, if_pos rfl]
  | cons c cs ih =>
    intro rest hk
    obtain ⟨h1, h2, h3⟩ := hk c (by simp)
    rw [List.cons_append, parseStringBody_cons]
    rw [if_neg h1, if_neg h2, if_neg (by omega : ¬ c.toNat < 32)]
    rw [ih rest (fun x hx => hk x (by simp [hx]))]
    rfl

theorem natDigitsAux_eq : ∀ fuel n : Nat, n ≤ fuel →
    natDigitsAux fuel n = Nat.digits 10 n := by
  intro fuel
  induction fuel with
  | zero =>
    intro n hn
    have : n = 0 := by omega
    subst this
    rw [Nat.digits_zero]
    simp [natDigitsAux]
  | succ fuel ih =>
    intro n hn
    by_cases h0 : n = 0
    · subst h0
      rw [Nat.digits_zero]
      simp [natDigitsAux]
    · show (if n = 0 then [] else (n % 10) :: natDigitsAux fuel (n / 10)) = _
      rw [if_neg h0]
      have hlt : n / 10 < n := Nat.div_lt_self (Nat.pos_of_ne_zero h0)
        (by norm_num)
      rw [ih (n / 10) (by omega)]
      rw [Nat.digits_def' (by norm_num : (1 : ℕ) < 10)
        (Nat.pos_of_ne_zero h0)]

theorem natDigits_eq (n : Nat) : natDigits n = Nat.digits 10 n :=
  natDigitsAux_eq n n (le_refl n)

theorem natDigits_lt (n : Nat) : ∀ d ∈ natDigits n, d < 10 := by
  rw [natDigits_eq]
  exact fun d hd => Nat.digits_lt_base (by norm_num) hd

theorem digitChar_facts : ∀ d : Nat, d < 10 →
    (Nat.digitChar d).isDigit = true ∧ (Nat.digitChar d).toNat - 48 = d ∧
    Nat.digitChar d ≠ 'n' ∧ Nat.digitChar d ≠ 't' ∧ Nat.digitChar d ≠ 'f' ∧
    Nat.digitChar d ≠ '"' ∧ Nat.digitChar d ≠ '-' := by
  decide

theorem digitRun_append (ds rest : List Char)
    (hds : ∀ c ∈ ds, c.isDigit = true)
    (hrest : ∀ c, rest.head? = some c → c.isDigit = false) :
    digitRun (ds ++ rest) = (ds, rest) := by
  induction ds with
  | nil =>
    cases rest with
    | nil => rfl
    | cons r rs =>
      have := hrest r rfl
      simp [digitRun, this]
  | cons c cs ih =>
    have hc := hds c (by simp)
    show (if c.isDigit then (c :: (digitRun (cs ++ rest)).1,
        (digitRun (cs ++ rest)).2) else ([], c :: (cs ++ rest))) = _
    rw [if_pos hc, ih (fun x hx => hds x (by simp [hx]))]

theorem horner_digits (l : List Nat) :
    ∀ acc : Nat, (∀ d ∈ l, d < 10) →
    ((l.reverse.map Nat.digitChar).foldl
        (fun a c => a * 10 + (c.toNat - 48)) acc)
      = acc * 10 ^ l.length + Nat.ofDigits 10 l := by
  induction l with
  | nil =>
    intro acc _
    simp [Nat.ofDigits_nil]
  | cons d ds ih =>
    intro acc hd
    rw [List.reverse_cons, List.map_append, List.foldl_append]
    rw [ih acc (fun x hx => hd x (by simp [hx]))]
    simp only [List.map_cons, List.map_nil, List.foldl_cons, List.foldl_nil]
    rw [(digitChar_facts d (hd d (by simp))).2.1]
    rw [Nat.ofDigits_cons]
    simp only [List.length_cons, pow_succ]
    ring

theorem natRepr_data_digits (m : Nat) :
    (natRepr m).data ≠ [] ∧ ∀ c ∈ (natRepr m).data, c.isDigit = true := by
  by_cases h0 : m = 0
  · subst h0
    constructor
    · decide
    · decide
  · constructor
    · simp only [natRepr, if_neg h0]
      intro hcon
      have hmap : (natDigits m).reverse.map Nat.digitChar = [] := hcon
      rw [List.map_eq_nil_iff, List.reverse_eq_nil_iff, natDigits_eq] at hmap
      exact (Nat.digits_ne_nil_iff_ne_zero.mpr h0) hmap
    · intro c hc
      simp only [natRepr, if_neg h0] at hc
      rcases List.mem_map.mp hc with ⟨d, hdm, hcd⟩
      have hd10 : d < 10 := natDigits_lt m d (List.mem_reverse.mp hdm)
      rw [← hcd]
      exact (digitChar_facts d hd10).1

theorem digitsVal_natRepr (n : Nat) : digitsVal (natRepr n).data = n := by
  by_cases h0 : n = 0
  · subst h0
    decide
  · show (natRepr n).data.foldl (fun a c => a * 10 + (c.toNat - 48)) 0 = n
    simp only [natRepr, if_neg h0]
    rw [horner_digits (natDigits n) 0 (natDigits_lt n)]
    rw [natDigits_eq, Nat.ofDigits_digits]
    simp

/- Helper lemmas for the fast-encode round trip (claim C5): number tokens
(integer and float) and scalar value parsing. -/

theorem digit_not_special (c : Char) (h : c.isDigit = true) :
    c ≠ 'n' ∧ c ≠ 't' ∧ c ≠ 'f' ∧ c ≠ '"' ∧ c ≠ '-' := by
  refine ⟨?_, ?_, ?_, ?_, ?_⟩ <;> (rintro rfl; exact absurd h (by decide))

theorem digit_not_signexp (c : Char) (h : c.isDigit = true) :
    ¬ (c = '+' ∨ c = '-') := by
  rintro (rfl | rfl) <;> exact absurd h (by decide)

theorem parseFracExp_none (rest : List Char)
    (hrest : ∀ c, rest.head? = some c → c ≠ '.' ∧ c ≠ 'e') :
    parseFracExp rest = none := by
  cases rest with
  | nil => rfl
  | cons c r =>
    obtain ⟨h1, h2⟩ := hrest c rfl
    show (if c = '.' then _ else if c = 'e' then _ else none) = none
    rw [if_neg h1, if_neg h2]

theorem parseExpPart_shaped (e rest : List Char) (h : ExpShaped e)
    (hrest : ∀ c, rest.head? = some c → c.isDigit = false) :
    parseExpPart (e ++ rest) = some (e, rest) := by
  obtain ⟨sgn, ds, hsgn, he, hne, hdig⟩ := h
  subst he
  cases ds with
  | nil => exact absurd rfl hne
  | cons d ds' =>
    have hd := hdig d (by simp)
    have hrun : digitRun ((d :: ds') ++ rest) = (d :: ds', rest) :=
      digitRun_append _ _ hdig hrest
    rcases hsgn with h | h | h <;> subst h
    · show (if ('e' : Char) = 'e' then
            (if d = '+' ∨ d = '-' then
              (match digitRun (ds' ++ rest) with
               | ([], _) => none
               | (es, r3) => some ('e' :: d :: es, r3))
             else
              (match digitRun (d :: (ds' ++ rest)) with
               | ([], _) => none
               | (es, r3) => some ('e' :: es, r3)))
          else none) = some ('e' :: ([] ++ d :: ds'), rest)
      rw [if_pos rfl, if_neg (digit_not_signexp d hd)]
      have h0 : d :: (ds' ++ rest) = (d :: ds') ++ rest := rfl
      rw [h0, hrun]
      rfl
    · show (if ('e' : Char) = 'e' then
            (if ('+' : Char) = '+' ∨ ('+' : Char) = '-' then
              (match digitRun ((d :: ds') ++ rest) with
               | ([], _) => none
               | (es, r3) => some ('e' :: '+' :: es, r3))
             else
              (match digitRun ('+' :: ((d :: ds') ++ rest)) with
               | ([], _) => none
               | (es, r3) => some ('e' :: es, r3)))
          else none) = some ('e' :: (['+'] ++ d :: ds'), rest)
      rw [if_pos rfl, if_pos (Or.inl rfl), hrun]
      rfl
    · show (if ('e' : Char) = 'e' then
            (if ('-' : Char) = '+' ∨ ('-' : Char) = '-' then
              (match digitRun ((d :: ds') ++ rest) with
               | ([], _) => none
               | (es, r3) => some ('e' :: '-' :: es, r3))
             else
              (match digitRun ('-' :: ((d :: ds') ++ rest)) with
               | ([], _) => none
               | (es, r3) => some ('e' :: es, r3)))
          else none) = some ('e' :: (['-'] ++ d :: ds'), rest)
      rw [if_pos rfl, if_pos (Or.inr rfl), hrun]
      rfl

theorem ExpShaped_head (t : List Char) (h : ExpShaped t) :
    t.head? = some 'e' := by
  obtain ⟨sgn, ds, _, he, _, _⟩ := h
  rw [he]
  rfl

theorem FracExpShaped_head (t : List Char) (h : FracExpShaped t) :
    t.head? = some '.' ∨ t.head? = some 'e' := by
  rcases h with ⟨fs, e, ht, _, _, _⟩ | he
  · left
    rw [ht]
    rfl
  · right
    exact ExpShaped_head t he

theorem parseFracExp_shaped (t rest : List Char) (h : FracExpShaped t)
    (hrest : ∀ c, rest.head? = some c → c.isDigit = false ∧ c ≠ 'e') :
    parseFracExp (t ++ rest) = some (t, rest) := by
  rcases h with ⟨fs, e, ht, hne, hdig, hexp⟩ | he
  · subst ht
    cases fs with
    | nil => exact absurd rfl hne
    | cons f fs' =>
      rcases hexp with rfl | hexp
      · simp only [List.append_nil]
        have hrun : digitRun ((f :: fs') ++ rest) = (f :: fs', rest) :=
          digitRun_append _ _ hdig (fun c hc => (hrest c hc).1)
        have hep : parseExpPart rest = none := by
          cases rest with
          | nil => rfl
          | cons c r =>
            show (if c = 'e' then _ else none) = none
            rw [if_neg (hrest c rfl).2]
        show (if ('.' : Char) = '.' then
              (match digitRun ((f :: fs') ++ rest) with
               | ([], _) => none
               | (fs2, r2) =>
                 match parseExpPart r2 with
                 | some (es, r3) => some ('.' :: (fs2 ++ es), r3)
                 | none => some ('.' :: fs2, r2))
            else if ('.' : Char) = 'e' then
              parseExpPart ('.' :: ((f :: fs') ++ rest))
            else none) = some ('.' :: (f :: fs'), rest)
        rw [if_pos rfl, hrun]
        show (match parseExpPart rest with
              | some (es, r3) => some ('.' :: ((f :: fs') ++ es), r3)
              | none => some ('.' :: (f :: fs'), rest))
            = some ('.' :: (f :: fs'), rest)
        rw [hep]
      · have hehead := ExpShaped_head e hexp
        have hrun : digitRun ((f :: fs') ++ (e ++ rest))
            = (f :: fs', e ++ rest) := by
          apply digitRun_append _ _ hdig
          intro c hc
          cases e with
          | nil => exact absurd hehead (by simp)
          | cons e0 es0 =>
            have he0 : e0 = 'e' := by
              have h0 : some e0 = some 'e' := hehead
              exact Option.some.inj h0
            subst he0
            have hce : c = 'e' := by
              have hcc : some 'e' = some c := hc
              exact (Option.some.inj hcc).symm
            subst hce
            decide
        have hep : parseExpPart (e ++ rest) = some (e, rest) :=
          parseExpPart_shaped e rest hexp (fun c hc => (hrest c hc).1)
        rw [show ('.' :: ((f :: fs') ++ e)) ++ rest
            = '.' :: ((f :: fs') ++ (e ++ rest)) from by simp]
        show (if ('.' : Char) = '.' then
              (match digitRun ((f :: fs') ++ (e ++ rest)) with
               | ([], _) => none
               | (fs2, r2) =>
                 match parseExpPart r2 with
                 | some (es, r3) => some ('.' :: (fs2 ++ es), r3)
                 | none => some ('.' :: fs2, r2))
            else if ('.' : Char) = 'e' then
              parseExpPart ('.' :: ((f :: fs') ++ (e ++ rest)))
            else none) = some ('.' :: ((f :: fs') ++ e), rest)
        rw [if_pos rfl, hrun]
        show (match parseExpPart (e ++ rest) with
              | some (es, r3) => some ('.' :: ((f :: fs') ++ es), r3)
              | none => some ('.' :: (f :: fs'), e ++ rest))
            = some ('.' :: ((f :: fs') ++ e), rest)
        rw [hep]
  · obtain ⟨sgn, ds, hsgn, he, hne, hdig⟩ := he
    subst he
    have hep : parseExpPart ('e' :: ((sgn ++ ds) ++ rest))
        = some ('e' :: (sgn ++ ds), rest) := by
      have h0 : ('e' :: (sgn ++ ds)) ++ rest
          = 'e' :: ((sgn ++ ds) ++ rest) := rfl
      rw [← h0]
      exact parseExpPart_shaped _ rest ⟨sgn, ds, hsgn, rfl, hne, hdig⟩
        (fun c hc => (hrest c hc).1)
    show (if ('e' : Char) = '.' then
            (match digitRun ((sgn ++ ds) ++ rest) with
             | ([], _) => none
             | (fs2, r2) =>
               match parseExpPart r2 with
               | some (es, r3) => some ('.' :: (fs2 ++ es), r3)
               | none => some ('.' :: fs2, r2))
          else if ('e' : Char) = 'e' then
            parseExpPart ('e' :: ((sgn ++ ds) ++ rest))
          else none) = some ('e' :: (sgn ++ ds), rest)
    rw [if_neg (by decide : ¬ ('e' : Char) = '.'), if_pos rfl, hep]

theorem parseNumber_int (neg : Bool) (ds rest : List Char) (hne : ds ≠ [])
    (hdig : ∀ c ∈ ds, c.isDigit = true)
    (hrest : ∀ c, rest.head? = some c →
      c.isDigit = false ∧ c ≠ '.' ∧ c ≠ 'e') :
    parseNumber neg (ds ++ rest)
      = some (.jint (if neg then -(digitsVal ds : Int)
          else (digitsVal ds : Int)), rest) := by
  have hrun : digitRun (ds ++ rest) = (ds, rest) :=
    digitRun_append _ _ hdig (fun c hc => (hrest c hc).1)
  have hfe : parseFracExp rest = none :=
    parseFracExp_none rest (fun c hc => ⟨(hrest c hc).2.1, (hrest c hc).2.2⟩)
  cases ds with
  | nil => exact absurd rfl hne
  | cons d ds' =>
    show (match digitRun ((d :: ds') ++ rest) with
          | ([], _) => none
          | (ds2, r) =>
            match parseFracExp r with
            | some (fe, r2) =>
              some (JVal.jfloat (String.mk ((if neg then ['-'] else [])
                ++ (ds2 ++ fe))), r2)
            | none =>
              some (JVal.jint (if neg then -(digitsVal ds2 : Int)
                else (digitsVal ds2 : Int)), r)) = _
    rw [hrun]
    show (match parseFracExp rest with
          | some (fe, r2) =>
            some (JVal.jfloat (String.mk ((if neg then ['-'] else [])
              ++ ((d :: ds') ++ fe))), r2)
          | none =>
            some (JVal.jint (if neg then -(digitsVal (d :: ds') : Int)
              else (digitsVal (d :: ds') : Int)), rest)) = _
    rw [hfe]

theorem parseNumber_float (neg : Bool) (ds t rest : List Char)
    (hne : ds ≠ []) (hdig : ∀ c ∈ ds, c.isDigit = true)
    (hfe : FracExpShaped t)
    (hrest : ∀ c, rest.head? = some c →
      c.isDigit = false ∧ c ≠ '.' ∧ c ≠ 'e') :
    parseNumber neg ((ds ++ t) ++ rest)
      = some (.jfloat (String.mk ((if neg then ['-'] else [])
          ++ (ds ++ t))), rest) := by
  have hthead := FracExpShaped_head t hfe
  have hrun : digitRun (ds ++ (t ++ rest)) = (ds, t ++ rest) := by
    apply digitRun_append _ _ hdig
    intro c hc
    cases t with
    | nil => simp at hthead
    | cons t0 ts =>
      have hc0 : t0 = c := Option.some.inj hc
      subst hc0
      rcases hthead with h | h
      · rw [Option.some.inj h]
        decide
      · rw [Option.some.inj h]
        decide
  have hpf : parseFracExp (t ++ rest) = some (t, rest) :=
    parseFracExp_shaped t rest hfe
      (fun c hc => ⟨(hrest c hc).1, (hrest c hc).2.2⟩)
  cases ds with
  | nil => exact absurd rfl hne
  | cons d ds' =>
    have hassoc : ((d :: ds') ++ t) ++ rest = (d :: ds') ++ (t ++ rest) := by
      simp
    rw [hassoc]
    show (match digitRun ((d :: ds') ++ (t ++ rest)) with
          | ([], _) => none
          | (ds2, r) =>
            match parseFracExp r with
            | some (fe2, r2) =>
              some (JVal.jfloat (String.mk ((if neg then ['-'] else [])
                ++ (ds2 ++ fe2))), r2)
            | none =>
              some (JVal.jint (if neg then -(digitsVal ds2 : Int)
                else (digitsVal ds2 : Int)), r)) = _
    rw [hrun]
    show (match parseFracExp (t ++ rest) with
          | some (fe2, r2) =>
            some (JVal.jfloat (String.mk ((if neg then ['-'] else [])
              ++ ((d :: ds') ++ fe2))), r2)
          | none =>
            some (JVal.jint (if neg then -(digitsVal (d :: ds') : Int)
              else (digitsVal (d :: ds') : Int)), t ++ rest)) = _
    rw [hpf]

theorem parseValue_null (r : List Char) :
    parseValue ('n' :: 'u' :: 'l' :: 'l' :: r) = some (.jnull, r) := rfl

theorem parseValue_true (r : List Char) :
    parseValue ('t' :: 'r' :: 'u' :: 'e' :: r) = some (.jbool true, r) := rfl

theorem parseValue_false (r : List Char) :
    parseValue ('f' :: 'a' :: 'l' :: 's' :: 'e' :: r)
      = some (.jbool false, r) := rfl

theorem parseValue_quote (r : List Char) :
    parseValue ('"' :: r)
      = (parseStringBody r).map (fun p => (.jstr (String.mk p.1), p.2)) := rfl

theorem parseValue_neg (r : List Char) :
    parseValue ('-' :: r) = parseNumber true r := rfl

theorem parseValue_cons (c : Char) (cs : List Char) :
    parseValue (c :: cs)
      = if c = 'n' then
          (match cs with
           | 'u' :: 'l' :: 'l' :: r => some (.jnull, r)
           | _ => none)
        else if c = 't' then
          (match cs with
           | 'r' :: 'u' :: 'e' :: r => some (.jbool true, r)
           | _ => none)
        else if c = 'f' then
          (match cs with
           | 'a' :: 'l' :: 's' :: 'e' :: r => some (.jbool false, r)
           | _ => none)
        else if c = '"' then
          (parseStringBody cs).map (fun p => (.jstr (String.mk p.1), p.2))
        else if c = '-' then
          parseNumber true cs
        else if c.isDigit then
          parseNumber false (c :: cs)
        else none := rfl

theorem parseValue_digit (c : Char) (cs : List Char) (h : c.isDigit = true) :
    parseValue (c :: cs) = parseNumber false (c :: cs) := by
  obtain ⟨hn, ht, hf, hq, hm⟩ := digit_not_special c h
  rw [parseValue_cons, if_neg hn, if_neg ht, if_neg hf, if_neg hq,
    if_neg hm, if_pos h]

/-- Parsing the encoder's value text recovers the value (string and float
payloads must be `jsonSafe`; the following text must not begin with a
digit, a decimal point or an exponent marker). -/
theorem parseValue_encodeVal (v : JVal) (rest : List Char)
    (hv : v.jsonSafe)
    (hrest : ∀ c, rest.head? = some c →
      c.isDigit = false ∧ c ≠ '.' ∧ c ≠ 'e') :
    parseValue ((encodeVal v).data ++ rest) = some (v, rest) := by
  cases v with
  | jnull => exact parseValue_null rest
  | jbool b =>
    cases b
    · exact parseValue_false rest
    · exact parseValue_true rest
  | jstr s =>
    have hs : ∀ c ∈ s.data, 32 ≤ c.toNat := hv
    have hcalc : (encodeVal (JVal.jstr s)).data ++ rest
        = '"' :: (escapeJsonChars s.data ++ '"' :: rest) := by
      show (("\"" ++ String.mk (escapeJsonChars s.data)) ++ "\"").data
          ++ rest = _
      rw [String.data_append, String.data_append]
      simp
    rw [hcalc, parseValue_quote, parseStringBody_escape s.data rest hs]
    rfl
  | jint n =>
    cases n with
    | ofNat m =>
      obtain ⟨hne, hdig⟩ := natRepr_data_digits m
      show parseValue ((natRepr m).data ++ rest) = _
      cases hd : (natRepr m).data with
      | nil => exact absurd hd hne
      | cons c cs =>
        have hc : c.isDigit = true := hdig c (by rw [hd]; simp)
        rw [List.cons_append, parseValue_digit c (cs ++ rest) hc]
        rw [← List.cons_append, ← hd]
        rw [parseNumber_int false (natRepr m).data rest hne hdig hrest]
        show some (JVal.jint (digitsVal (natRepr m).data : Int), rest) = _
        rw [digitsVal_natRepr]
        rfl
    | negSucc m =>
      obtain ⟨hne, hdig⟩ := natRepr_data_digits (m + 1)
      have hdata : (encodeVal (JVal.jint (Int.negSucc m))).data ++ rest
          = '-' :: ((natRepr (m + 1)).data ++ rest) := by
        show ("-" ++ natRepr (m + 1)).data ++ rest = _
        rw [String.data_append]
        simp
      rw [hdata, parseValue_neg]
      rw [parseNumber_int true (natRepr (m + 1)).data rest hne hdig hrest]
      have hns : -((digitsVal (natRepr (m + 1)).data : Nat) : Int)
          = Int.negSucc m := by
        rw [digitsVal_natRepr, Int.negSucc_eq]
        push_cast
        ring
      show some (JVal.jint (-(digitsVal (natRepr (m + 1)).data : Int)), rest)
          = some (JVal.jint (Int.negSucc m), rest)
      rw [hns]
  | jfloat s =>
    obtain ⟨neg, ds, t, hsplit, hne, hdig, hfe⟩ := hv
    have hthead := FracExpShaped_head t hfe
    cases neg with
    | true =>
      have hdata : (encodeVal (JVal.jfloat s)).data ++ rest
          = '-' :: ((ds ++ t) ++ rest) := by
        show s.data ++ rest = _
        rw [hsplit]
        simp
      rw [hdata, parseValue_neg]
      rw [parseNumber_float true ds t rest hne hdig hfe hrest]
      have hsplit2 : s.data = ['-'] ++ (ds ++ t) := by simpa using hsplit
      show some (JVal.jfloat (String.mk (['-'] ++ (ds ++ t))), rest)
          = some (JVal.jfloat s, rest)
      rw [← hsplit2]
    | false =>
      have hdata : (encodeVal (JVal.jfloat s)).data ++ rest
          = (ds ++ t) ++ rest := by
        show s.data ++ rest = _
        rw [hsplit]
        simp
      rw [hdata]
      cases hds : ds with
      | nil => exact absurd hds hne
      | cons d ds' =>
        have hd : d.isDigit = true := hdig d (by rw [hds]; simp)
        have hshape : ((d :: ds') ++ t) ++ rest
            = d :: ((ds' ++ t) ++ rest) := by
          simp
        rw [hshape, parseValue_digit d _ hd, ← hshape, ← hds]
        rw [parseNumber_float false ds t rest hne hdig hfe hrest]
        have hsplit2 : s.data = ds ++ t := by simpa using hsplit
        show some (JVal.jfloat (String.mk (ds ++ t)), rest)
            = some (JVal.jfloat s, rest)
        rw [← hsplit2]

/- Helper lemmas for the fast-encode round trip (claim C5): the
comma-joined member list. -/

theorem intercalate_go_data (s : String) (l : List String) :
    ∀ acc : String, (String.intercalate.go acc s l).data
      = acc.data ++ (l.map (fun b => s.data ++ b.data)).flatten := by
  induction l with
  | nil =>
    intro acc
    show acc.data
        = acc.data
          ++ (List.map (fun b : String => s.data ++ b.data)
              ([] : List String)).flatten
    simp
  | cons b bs ih =>
    intro acc
    show (String.intercalate.go (acc ++ s ++ b) s bs).data = _
    rw [ih]
    simp [String.data_append, List.append_assoc]

theorem intercalate_cons_data (s a : String) (l : List String) :
    (String.intercalate s (a :: l)).data
      = a.data ++ (l.map (fun b => s.data ++ b.data)).flatten := by
  show (String.intercalate.go a s l).data = _
  rw [intercalate_go_data]

theorem encodePart_data (k : String) (o : Option JVal) :
    (encodePart k o).data
      = '"' :: k.data ++ '"' :: ':' :: (encodeVal (o.getD .jnull)).data := by
  cases o with
  | none =>
    show (("\"" ++ k) ++ "\":null").data = _
    rw [String.data_append, String.data_append]
    rfl
  | some v =>
    show ((("\"" ++ k) ++ "\":") ++ encodeVal v).data = _
    rw [String.data_append, String.data_append, String.data_append]
    show ((['"'] ++ k.data) ++ ['"', ':']) ++ (encodeVal v).data
        = '"' :: k.data ++ '"' :: ':' :: (encodeVal v).data
    simp

theorem parseMembers_step_last (fuel : Nat) (kd r2 : List Char) (v : JVal)
    (h1 : parseStringBody (kd ++ '"' :: ':' :: r2) = some (kd, ':' :: r2))
    (h2 : parseValue r2 = some (v, [rbrace])) :
    parseMembers (fuel + 1) ('"' :: (kd ++ '"' :: ':' :: r2))
      = some ([(String.mk kd, v)], []) := by
  show (match parseStringBody (kd ++ '"' :: ':' :: r2) with
        | none => none
        | some (k, r1) =>
          match r1 with
          | ':' :: r2 =>
            match parseValue r2 with
            | none => none
            | some (v, r3) =>
              match r3 with
              | ',' :: r4 =>
                match parseMembers fuel r4 with
                | some (ms, r5) => some ((String.mk k, v) :: ms, r5)
                | none => none
              | c :: r4 =>
                if c = rbrace then some ([(String.mk k, v)], r4) else none
              | [] => none
          | _ => none) = some ([(String.mk kd, v)], [])
  rw [h1]
  show (match parseValue r2 with
        | none => none
        | some (v, r3) =>
          match r3 with
          | ',' :: r4 =>
            match parseMembers fuel r4 with
            | some (ms, r5) => some ((String.mk kd, v) :: ms, r5)
            | none => none
          | c :: r4 =>
            if c = rbrace then some ([(String.mk kd, v)], r4) else none
          | [] => none) = some ([(String.mk kd, v)], [])
  rw [h2]
  rfl

theorem parseMembers_step_cons (fuel : Nat) (kd r2 r4 : List Char) (v : JVal)
    (ms : List (String × JVal))
    (h1 : parseStringBody (kd ++ '"' :: ':' :: r2) = some (kd, ':' :: r2))
    (h2 : parseValue r2 = some (v, ',' :: r4))
    (h3 : parseMembers fuel r4 = some (ms, [])) :
    parseMembers (fuel + 1) ('"' :: (kd ++ '"' :: ':' :: r2))
      = some ((String.mk kd, v) :: ms, []) := by
  show (match parseStringBody (kd ++ '"' :: ':' :: r2) with
        | none => none
        | some (k, r1) =>
          match r1 with
          | ':' :: r2 =>
            match parseValue r2 with
            | none => none
            | some (v, r3) =>
              match r3 with
              | ',' :: r4 =>
                match parseMembers fuel r4 with
                | some (ms, r5) => some ((String.mk k, v) :: ms, r5)
                | none => none
              | c :: r4 =>
                if c = rbrace then some ([(String.mk k, v)], r4) else none
              | [] => none
          | _ => none) = some ((String.mk kd, v) :: ms, [])
  rw [h1]
  show (match parseValue r2 with
        | none => none
        | some (v, r3) =>
          match r3 with
          | ',' :: r4 =>
            match parseMembers fuel r4 with
            | some (ms, r5) => some ((String.mk kd, v) :: ms, r5)
            | none => none
          | c :: r4 =>
            if c = rbrace then some ([(String.mk kd, v)], r4) else none
          | [] => none) = some ((String.mk kd, v) :: ms, [])
  rw [h2]
  show (match parseMembers fuel r4 with
        | some (ms, r5) => some ((String.mk kd, v) :: ms, r5)
        | none => none) = some ((String.mk kd, v) :: ms, [])
  rw [h3]

/- Helper lemmas for the fast-encode round trip (claim C5): dictionary
lookups and the member-list length bound. -/

theorem alookup_eq_none_iff [DecidableEq κ] (l : List (κ × β)) (k : κ) :
    alookup l k = none ↔ ∀ p ∈ l, p.1 ≠ k := by
  simp only [alookup, Option.map_eq_none', List.find?_eq_none,
    decide_eq_true_eq]

theorem alookup_eq_some_mem [DecidableEq κ] (l : List (κ × β)) (k : κ)
    (v : β) (h : alookup l k = some v) : (k, v) ∈ l := by
  simp only [alookup, Option.map_eq_some'] at h
  obtain ⟨p, hp, hv⟩ := h
  have hk := List.find?_some hp
  simp only [decide_eq_true_eq] at hk
  have hm := List.mem_of_find?_eq_some hp
  cases p with
  | mk a b =>
    cases hk
    cases hv
    exact hm

theorem alookup_map_keyfn [DecidableEq κ] (ks : List κ) (f : κ → β) (k : κ) :
    alookup (ks.map (fun x => (x, f x))) k
      = if k ∈ ks then some (f k) else none := by
  induction ks with
  | nil => simp [alookup]
  | cons a as ih =>
    rw [List.map_cons, alookup_cons]
    by_cases h : a = k
    · subst h
      simp
    · rw [if_neg h, ih]
      have hne : ¬ k = a := fun hc => h hc.symm
      simp [List.mem_cons, hne]

theorem alookup_mem_isSome [DecidableEq κ] (l : List (κ × β)) (k : κ)
    (h : k ∈ l.map Prod.fst) : (alookup l k).isSome := by
  induction l with
  | nil => simp at h
  | cons p l ih =>
    rw [List.map_cons] at h
    rw [alookup_cons]
    by_cases hp : p.1 = k
    · simp [hp]
    · rw [if_neg hp]
      rcases List.mem_cons.mp h with h1 | h2
      · exact absurd h1.symm hp
      · exact ih h2

theorem intercalate_member_split (data : JDict) (k k2 : String)
    (ks : List String) :
    (String.intercalate ","
        ((k :: k2 :: ks).map (fun x => encodePart x (alookup data x)))).data
      = (encodePart k (alookup data k)).data
        ++ ',' :: (String.intercalate ","
          ((k2 :: ks).map (fun x => encodePart x (alookup data x)))).data := by
  simp only [List.map_cons, intercalate_cons_data, List.flatten_cons]
  simp [show (",".data : List Char) = [','] from rfl]

theorem member_length_ge (data : JDict) : ∀ ks : List String,
    ks.length ≤ (String.intercalate ","
      (ks.map (fun x => encodePart x (alookup data x)))).data.length + 1 := by
  intro ks
  induction ks with
  | nil => simp
  | cons k ks ih =>
    cases ks with
    | nil => simp
    | cons k2 ks' =>
      rw [intercalate_member_split]
      simp only [List.length_cons, List.length_append] at ih ⊢
      omega

/- Helper lemmas for the fast-encode round trip (claim C5): the member
list parses back, and the whole object parses back. -/

theorem parseMembers_encode (data : JDict) :
    ∀ (ks : List String) (fuel : Nat), ks ≠ [] →
    (∀ k ∈ ks, ∀ c ∈ k.data, c ≠ '"' ∧ c ≠ '\\' ∧ 32 ≤ c.toNat) →
    (∀ k ∈ ks, ∀ v, alookup data k = some v → v.jsonSafe) →
    parseMembers (fuel + ks.length)
      ((String.intercalate ","
          (ks.map (fun k => encodePart k (alookup data k)))).data
        ++ [rbrace])
      = some (ks.map (fun k => (k, (alookup data k).getD JVal.jnull)), []) := by
  intro ks
  induction ks with
  | nil =>
    intro fuel h
    exact absurd rfl h
  | cons k ks ih =>
    intro fuel _ hclean hstr
    have hk : ∀ c ∈ k.data, c ≠ '"' ∧ c ≠ '\\' ∧ 32 ≤ c.toNat :=
      hclean k (by simp)
    have hv : ((alookup data k).getD JVal.jnull).jsonSafe := by
      cases hlk : alookup data k with
      | none =>
        rw [Option.getD_none]
        trivial
      | some v =>
        rw [Option.getD_some]
        exact hstr k (by simp) v hlk
    cases ks with
    | nil =>
      have hint : String.intercalate ","
            ([k].map (fun x => encodePart x (alookup data x)))
          = encodePart k (alookup data k) := rfl
      rw [hint, encodePart_data]
      have hshape : (('"' :: k.data)
            ++ ('"' :: ':' :: (encodeVal ((alookup data k).getD .jnull)).data))
            ++ [rbrace]
          = '"' :: (k.data ++ '"' :: ':'
              :: ((encodeVal ((alookup data k).getD .jnull)).data
                ++ [rbrace])) := by
        simp
      rw [hshape]
      exact parseMembers_step_last fuel k.data _ _
        (parseStringBody_clean k.data _ hk)
        (parseValue_encodeVal _ [rbrace] hv
          (by intro c hc; cases hc; decide))
    | cons k2 ks' =>
      have hsplit := intercalate_member_split data k k2 ks'
      rw [hsplit, encodePart_data]
      have hshape : (('"' :: k.data
            ++ '"' :: ':' :: (encodeVal ((alookup data k).getD .jnull)).data)
            ++ ',' :: (String.intercalate "," ((k2 :: ks').map
              (fun x => encodePart x (alookup data x)))).data)
            ++ [rbrace]
          = '"' :: (k.data ++ '"' :: ':'
              :: ((encodeVal ((alookup data k).getD .jnull)).data
                ++ ',' :: ((String.intercalate "," ((k2 :: ks').map
                  (fun x => encodePart x (alookup data x)))).data
                  ++ [rbrace]))) := by
        simp
      rw [hshape]
      exact parseMembers_step_cons (fuel + (k2 :: ks').length) k.data _ _ _ _
        (parseStringBody_clean k.data _ hk)
        (parseValue_encodeVal _ _ hv (by intro c hc; cases hc; decide))
        (ih fuel (by simp)
          (fun x hx => hclean x (by simp [hx]))
          (fun x hx => hstr x (by simp [hx])))

theorem parseJson_object (s : String) (t : List Char)
    (ms : List (String × JVal))
    (hdata : s.data = lbrace :: '"' :: (t ++ [rbrace]))
    (hpm : parseMembers s.length ('"' :: (t ++ [rbrace])) = some (ms, [])) :
    parseJson s = some ms := by
  show (match s.data with
        | c :: r =>
          if c = lbrace then
            match r with
            | c2 :: r2 =>
              if c2 = rbrace then (if r2 = [] then some [] else none)
              else
                match parseMembers s.length r with
                | some (ms, rest) => if rest = [] then some ms else none
                | none => none
            | [] => none
          else none
        | [] => none) = some ms
  rw [hdata]
  show (if lbrace = lbrace then
          (if ('"' : Char) = rbrace then
             (if t ++ [rbrace] = [] then some [] else none)
           else
             match parseMembers s.length ('"' :: (t ++ [rbrace])) with
             | some (ms, rest) => if rest = [] then some ms else none
             | none => none)
        else none) = some ms
  rw [if_pos rfl, if_neg (by decide : ¬ ('"' : Char) = rbrace), hpm]
  rfl

/-- The full `fast_encode` output of a stored template parses back to the
template's keys paired with the dict's values. -/
theorem fast_encode_parse (enc : JSONPreEncoder) (route : String)
    (data : JDict) (ks : List String)
    (htpl : alookup enc.templates route = some ks)
    (hclean : ∀ k ∈ ks, ∀ c ∈ k.data, c ≠ '"' ∧ c ≠ '\\' ∧ 32 ≤ c.toNat)
    (hstr : ∀ k ∈ ks, ∀ v, alookup data k = some v → v.jsonSafe) :
    enc.fast_encode route data
        = some ("\x7b"
            ++ String.intercalate ","
                (ks.map (fun k => encodePart k (alookup data k)))
            ++ "\x7d")
      ∧ parseJson ("\x7b"
            ++ String.intercalate ","
                (ks.map (fun k => encodePart k (alookup data k)))
            ++ "\x7d")
        = some (ks.map (fun k => (k, (alookup data k).getD JVal.jnull))) := by
  constructor
  · show (match alookup enc.templates route with
          | none => none
          | some keys =>
            some ("\x7b"
              ++ String.intercalate ","
                  (keys.map (fun k => encodePart k (alookup data k)))
              ++ "\x7d"))
        = _
    rw [htpl]
  · cases ks with
    | nil => rfl
    | cons k1 krest =>
      obtain ⟨Mtail, hMt⟩ : ∃ t, (String.intercalate ","
          ((k1 :: krest).map (fun k => encodePart k (alookup data k)))).data
            = '"' :: t := by
        rw [List.map_cons, intercalate_cons_data, encodePart_data]
        refine ⟨k1.data ++ ('"' :: ':' ::
            (encodeVal ((alookup data k1).getD .jnull)).data)
          ++ (((krest.map (fun k => encodePart k (alookup data k))).map
              (fun b => ",".data ++ b.data)).flatten), ?_⟩
        simp
      have hlenle : (k1 :: krest).length
          ≤ (String.intercalate "," ((k1 :: krest).map
              (fun k => encodePart k (alookup data k)))).data.length + 1 :=
        member_length_ge data (k1 :: krest)
      have key : ∀ s : String,
          s.data = lbrace :: ((String.intercalate ","
            ((k1 :: krest).map (fun k => encodePart k (alookup data k)))).data
              ++ [rbrace]) →
          parseJson s = some ((k1 :: krest).map
            (fun k => (k, (alookup data k).getD JVal.jnull))) := by
        intro s hs
        have hslen : s.length = (String.intercalate ","
            ((k1 :: krest).map
              (fun k => encodePart k (alookup data k)))).data.length
              + 2 := by
          show s.data.length = _
          rw [hs]
          simp
        apply parseJson_object s Mtail
        · rw [hs, hMt]
          rfl
        · have hrw : ('"' :: (Mtail ++ [rbrace]))
              = (String.intercalate "," ((k1 :: krest).map
                  (fun k => encodePart k (alookup data k)))).data
                ++ [rbrace] := by
            rw [hMt]
            rfl
          rw [hrw]
          have hF : s.length
              = (s.length - (k1 :: krest).length) + (k1 :: krest).length := by
            omega
          rw [hF]
          exact parseMembers_encode data (k1 :: krest) _ (by simp)
            hclean hstr
      apply key
      rw [String.data_append, String.data_append]
      rw [show ("\x7b".data : List Char) = [lbrace] from rfl,
        show ("\x7d".data : List Char) = [rbrace] from rfl]
      simp

/- Helper lemmas for the fast-encode round trip (claim C5): learning a
fresh structure stores the sorted key template. -/

theorem buildTemplate_lookup (e : JSONPreEncoder) (route : String)
    (data : JDict) (hmax : 1 ≤ e.max_templates)
    (htpl : alookup e.templates route = none) :
    alookup (e.buildTemplate route data).templates route
      = some ((data.map Prod.fst).mergeSort (fun a b => a ≤ b)) := by
  simp only [JSONPreEncoder.buildTemplate]
  rw [if_pos htpl]
  show alookup ((e.templates
      ++ [(route, (data.map Prod.fst).mergeSort (fun a b => a ≤ b))]).drop
      ((e.templates
        ++ [(route, (data.map Prod.fst).mergeSort (fun a b => a ≤ b))]).length
        - e.max_templates)) route = _
  rw [List.drop_append_of_le_length (by simp; omega)]
  have hdropnone : alookup (e.templates.drop
      ((e.templates
        ++ [(route, (data.map Prod.fst).mergeSort (fun a b => a ≤ b))]).length
        - e.max_templates)) route = none := by
    rw [alookup_eq_none_iff] at htpl ⊢
    exact fun p hp => htpl p (List.mem_of_mem_drop hp)
  rw [alookup_append_of_none _ _ _ _ hdropnone, if_pos rfl]

theorem learn_structure_fresh (enc : JSONPreEncoder) (route : String)
    (data : JDict)
    (hfp : alookup enc.structure_fingerprints route = none) :
    enc.learn_structure route data
      = (true, ({ enc with
          structure_fingerprints :=
            aset enc.structure_fingerprints route (jsonFingerprint data)
        } : JSONPreEncoder).buildTemplate route data) := by
  simp only [JSONPreEncoder.learn_structure]
  rw [hfp]

/-- **C5** (amended): on a route with no stored fingerprint or template,
`learn_structure` accepts the dict (returns `True`), and `fast_encode`
then produces a JSON text that the strict standard parser decodes to a
dict with exactly the original dict's lookups — provided the keys contain
no double quote, backslash or control character, the string values
contain no control character, and the float values are finite (each
`jsonSafe`); None, bool, int and finite float payloads are covered. -/
theorem c5_fast_encode_roundtrip (enc : JSONPreEncoder) (route : String)
    (data : JDict)
    (hmax : 1 ≤ enc.max_templates)
    (hfp : alookup enc.structure_fingerprints route = none)
    (htpl : alookup enc.templates route = none)
    (hkeys : ∀ k ∈ data.map Prod.fst, ∀ c ∈ k.data,
      c ≠ '"' ∧ c ≠ '\\' ∧ 32 ≤ c.toNat)
    (hvals : ∀ p ∈ data, p.2.jsonSafe) :
    (enc.learn_structure route data).1 = true ∧
    ∃ out parsed,
      (enc.learn_structure route data).2.fast_encode route data = some out
      ∧ parseJson out = some parsed
      ∧ ∀ k, alookup parsed k = alookup data k := by
  rw [learn_structure_fresh enc route data hfp]
  refine ⟨rfl, ?_⟩
  have hlook : alookup (({ enc with
      structure_fingerprints :=
        aset enc.structure_fingerprints route (jsonFingerprint data)
    } : JSONPreEncoder).buildTemplate route data).templates route
      = some ((data.map Prod.fst).mergeSort (fun a b => a ≤ b)) :=
    buildTemplate_lookup _ route data hmax htpl
  have hmem : ∀ k, k ∈ (data.map Prod.fst).mergeSort (fun a b => a ≤ b)
      ↔ k ∈ data.map Prod.fst := by
    intro k
    exact (List.mergeSort_perm (data.map Prod.fst) _).mem_iff
  have hclean : ∀ k ∈ (data.map Prod.fst).mergeSort (fun a b => a ≤ b),
      ∀ c ∈ k.data, c ≠ '"' ∧ c ≠ '\\' ∧ 32 ≤ c.toNat :=
    fun k hk => hkeys k ((hmem k).mp hk)
  have hstr : ∀ k ∈ (data.map Prod.fst).mergeSort (fun a b => a ≤ b),
      ∀ v, alookup data k = some v → v.jsonSafe := by
    intro k _ v hlk
    exact hvals (k, v) (alookup_eq_some_mem data k v hlk)
  obtain ⟨henc, hparse⟩ := fast_encode_parse _ route data _ hlook hclean hstr
  refine ⟨_, _, henc, hparse, ?_⟩
  intro k0
  rw [alookup_map_keyfn]
  by_cases hk : k0 ∈ (data.map Prod.fst).mergeSort (fun a b => a ≤ b)
  · rw [if_pos hk]
    have hsome := alookup_mem_isSome data k0 ((hmem k0).mp hk)
    obtain ⟨v, hv⟩ := Option.isSome_iff_exists.mp hsome
    rw [hv]
    rfl
  · rw [if_neg hk]
    have hnm : k0 ∉ data.map Prod.fst := fun hc => hk ((hmem k0).mpr hc)
    symm
    rw [alookup_eq_none_iff]
    intro p hp hpk
    exact hnm (List.mem_map.mpr ⟨p, hp, hpk⟩)

theorem c5_witness :
    (1 ≤ (initJSONPreEncoder 16).max_templates
      ∧ alookup (initJSONPreEncoder 16).structure_fingerprints "GET /api/u"
          = none
      ∧ alookup (initJSONPreEncoder 16).templates "GET /api/u" = none
      ∧ (∀ k ∈ ([("name", JVal.jstr "a b"), ("id", JVal.jint 42),
            ("neg", JVal.jint (-7)), ("ok", JVal.jbool true),
            ("missing", JVal.jnull), ("price", JVal.jfloat "19.5"),
            ("tiny", JVal.jfloat "1e-05"),
            ("big", JVal.jfloat "-1.5e+16")] : JDict).map Prod.fst,
          ∀ c ∈ k.data, c ≠ '"' ∧ c ≠ '\\' ∧ 32 ≤ c.toNat)
      ∧ (∀ p ∈ ([("name", JVal.jstr "a b"), ("id", JVal.jint 42),
            ("neg", JVal.jint (-7)), ("ok", JVal.jbool true),
            ("missing", JVal.jnull), ("price", JVal.jfloat "19.5"),
            ("tiny", JVal.jfloat "1e-05"),
            ("big", JVal.jfloat "-1.5e+16")] : JDict), p.2.jsonSafe))
    ∧ (((initJSONPreEncoder 16).learn_structure "GET /api/u"
          [("name", JVal.jstr "a b"), ("id", JVal.jint 42),
           ("neg", JVal.jint (-7)), ("ok", JVal.jbool true),
           ("missing", JVal.jnull), ("price", JVal.jfloat "19.5"),
           ("tiny", JVal.jfloat "1e-05"),
           ("big", JVal.jfloat "-1.5e+16")]).1 = true
        ∧ ∃ out parsed,
          (((initJSONPreEncoder 16).learn_structure "GET /api/u"
              [("name", JVal.jstr "a b"), ("id", JVal.jint 42),
               ("neg", JVal.jint (-7)), ("ok", JVal.jbool true),
               ("missing", JVal.jnull), ("price", JVal.jfloat "19.5"),
               ("tiny", JVal.jfloat "1e-05"),
               ("big", JVal.jfloat "-1.5e+16")]).2).fast_encode "GET /api/u"
              [("name", JVal.jstr "a b"), ("id", JVal.jint 42),
               ("neg", JVal.jint (-7)), ("ok", JVal.jbool true),
               ("missing", JVal.jnull), ("price", JVal.jfloat "19.5"),
               ("tiny", JVal.jfloat "1e-05"),
               ("big", JVal.jfloat "-1.5e+16")] = some out
          ∧ parseJson out = some parsed
          ∧ ∀ k, alookup parsed k
              = alookup [("name", JVal.jstr "a b"), ("id", JVal.jint 42),
                  ("neg", JVal.jint (-7)), ("ok", JVal.jbool true),
                  ("missing", JVal.jnull), ("price", JVal.jfloat "19.5"),
                  ("tiny", JVal.jfloat "1e-05"),
                  ("big", JVal.jfloat "-1.5e+16")] k) := by
  have hsafe : ∀ p ∈ ([("name", JVal.jstr "a b"), ("id", JVal.jint 42),
      ("neg", JVal.jint (-7)), ("ok", JVal.jbool true),
      ("missing", JVal.jnull), ("price", JVal.jfloat "19.5"),
      ("tiny", JVal.jfloat "1e-05"),
      ("big", JVal.jfloat "-1.5e+16")] : JDict), p.2.jsonSafe := by
    intro p hp
    simp only [List.mem_cons, List.not_mem_nil, or_false] at hp
    rcases hp with rfl | rfl | rfl | rfl | rfl | rfl | rfl | rfl
    · show ∀ c ∈ ("a b" : String).data, 32 ≤ c.toNat
      decide
    · exact trivial
    · exact trivial
    · exact trivial
    · exact trivial
    · show FloatShaped ("19.5" : String).data
      exact ⟨false, ['1', '9'], ['.', '5'], rfl, by decide, by decide,
        Or.inl ⟨['5'], [], rfl, by decide, by decide, Or.inl rfl⟩⟩
    · show FloatShaped ("1e-05" : String).data
      exact ⟨false, ['1'], ['e', '-', '0', '5'], rfl, by decide, by decide,
        Or.inr ⟨['-'], ['0', '5'], Or.inr (Or.inr rfl), rfl, by decide,
          by decide⟩⟩
    · show FloatShaped ("-1.5e+16" : String).data
      exact ⟨true, ['1'], ['.', '5', 'e', '+', '1', '6'], rfl, by decide,
        by decide,
        Or.inl ⟨['5'], ['e', '+', '1', '6'], rfl, by decide, by decide,
          Or.inr ⟨['+'], ['1', '6'], Or.inr (Or.inl rfl), rfl, by decide,
            by decide⟩⟩⟩
  exact ⟨⟨by decide, rfl, rfl, by decide, hsafe⟩,
    c5_fast_encode_roundtrip (initJSONPreEncoder 16) "GET /api/u"
      [("name", JVal.jstr "a b"), ("id", JVal.jint 42),
       ("neg", JVal.jint (-7)), ("ok", JVal.jbool true),
       ("missing", JVal.jnull), ("price", JVal.jfloat "19.5"),
       ("tiny", JVal.jfloat "1e-05"), ("big", JVal.jfloat "-1.5e+16")]
      (by decide) rfl rfl (by decide) hsafe⟩

end Sare
